import Mathlib

/-!
# Verification of the Pinit recommendation engine

Shallow embedding of the scoring/ranking core of the Pinit recommendation
pipeline (proximal recommender, user profile builder, review tagger, hidden
gem signal, global blender), with theorems settling the specification claims.

Python floats are modelled as real numbers; pandas DataFrames as lists of
records; Python dicts built by repeated assignment as last-occurrence-wins
association lookups; pandas/Python sorts as insertion sort (a deterministic
comparison sort; ties in the originals are implementation artifacts).
-/

open Real

namespace Pinit

/-! ## Proximal recommender (src/recommendation/proximal_recommendation.py) -/

/-- One row of the venue inventory, with the columns the proximal
recommender reads.  Missing values (`NaN`) are modelled as `none`. -/
structure Loc where
  location_id : Nat
  lat : Option ℝ
  lon : Option ℝ
  rating : Option ℝ
  user_ratings_total : Option ℝ

/-- Model of `ProximalConfig` with the source defaults. -/
structure ProximalConfig where
  radius_km : ℝ := 2.0
  min_results : Nat := 10
  max_results : Nat := 50
  taste_weight : ℝ := 0.2
  proximity_weight : ℝ := 0.6
  quality_weight : ℝ := 0.2

/-- Model of `haversine_distance`: great-circle distance in km.  `math.radians x`
is `x * π / 180`, `math.asin` is `Real.arcsin`. -/
noncomputable def haversine_distance (lat1 lon1 lat2 lon2 : ℝ) : ℝ :=
  let lat1_rad := lat1 * π / 180
  let lat2_rad := lat2 * π / 180
  let delta_lat := (lat2 - lat1) * π / 180
  let delta_lon := (lon2 - lon1) * π / 180
  let a := Real.sin (delta_lat / 2) ^ 2 +
    Real.cos lat1_rad * Real.cos lat2_rad * Real.sin (delta_lon / 2) ^ 2
  let c := 2 * Real.arcsin (Real.sqrt a)
  c * 6371

/-- Model of `calculate_distances`, per row: `none` models the `float('inf')` the
source assigns to rows with missing coordinates (such rows can never pass
the radius filter, exactly like an infinite distance). -/
noncomputable def calculateDistance (center_lat center_lon : ℝ) (loc : Loc) : Option ℝ :=
  match loc.lat, loc.lon with
  | some la, some lo => some (haversine_distance center_lat center_lon la lo)
  | _, _ => none

/-- A venue together with its `distance_km` column. -/
structure NearbyRow where
  loc : Loc
  distance_km : ℝ

open Classical in
/-- Model of `filter_by_radius`: add distances, keep rows with distance ≤ radius,
sort ascending by distance. -/
noncomputable def filter_by_radius (center_lat center_lon : ℝ)
    (locations : List Loc) (radius_km : ℝ) : List NearbyRow :=
  let withDist := locations.filterMap fun loc =>
    (calculateDistance center_lat center_lon loc).map fun d => NearbyRow.mk loc d
  let inRadius := withDist.filter fun row => decide (row.distance_km ≤ radius_km)
  List.insertionSort (fun a b => a.distance_km ≤ b.distance_km) inRadius

/-- A row of the `user_tags` taste-profile table. -/
structure UserTagRow where
  user_id : String
  tag_id : Nat
  score : ℝ

/-- A row of the `location_tags` table. -/
structure LocationTagRow where
  location_id : Nat
  tag_id : Nat
  tag_text : String
  score : ℝ

open Classical in
/-- Model of `compute_taste_score`: weighted tag overlap between a user profile and
each location, capped at 1.0; locations without matches score 0. -/
noncomputable def compute_taste_score (user_id : String) (location_ids : List Nat)
    (user_tags : List UserTagRow) (location_tags : List LocationTagRow) : Nat → ℝ :=
  let user_profile := user_tags.filter fun r => decide (r.user_id = user_id)
  if user_profile = [] then fun _ => 0 else
  let relevant := location_tags.filter fun r => decide (r.location_id ∈ location_ids)
  if relevant = [] then fun _ => 0 else
  let merged := user_profile.flatMap fun u =>
    (relevant.filter fun l => decide (l.tag_id = u.tag_id)).map fun l => (u, l)
  if merged = [] then fun _ => 0 else
  fun loc =>
    min (((merged.filter fun p => decide (p.2.location_id = loc)).map
      fun p => p.1.score / 100 * (p.2.score / 100)).sum) 1

/-- Model of `compute_proximity_score`: exponential decay in distance. -/
noncomputable def compute_proximity_score (distance max_distance : ℝ) : ℝ :=
  Real.exp (-2 * distance / max_distance)

/-- Model of `compute_quality_score`: 70% rating (default 3.0), 30% log review
count, capped at 1. -/
noncomputable def compute_quality_score (loc : Loc) : ℝ :=
  let rating_score := loc.rating.getD 3.0 / 5
  let review_score := min (Real.log (1 + loc.user_ratings_total.getD 0) / 10) 1
  min (0.7 * rating_score + 0.3 * review_score) 1

/-- Output row of the proximal recommender (the selected output columns). -/
structure ScoredRow where
  location_id : Nat
  distance_km : ℝ
  taste_score : ℝ
  proximity_score : ℝ
  quality_score : ℝ
  final_score : ℝ
  rank : Nat

/-- Model of `nearby_copy['rank'] = range(1, len(nearby_copy) + 1)`. -/
def assignRanks : Nat → List ScoredRow → List ScoredRow
  | _, [] => []
  | n, row :: rest => { row with rank := n } :: assignRanks (n + 1) rest

@[simp] theorem length_assignRanks (n : Nat) (l : List ScoredRow) :
    (assignRanks n l).length = l.length := by
  induction l generalizing n with
  | nil => rfl
  | cons a t ih => simp [assignRanks, ih]

theorem length_insertionSort {α : Type} (r : α → α → Prop) [DecidableRel r] (l : List α) :
    (List.insertionSort r l).length = l.length :=
  (List.perm_insertionSort r l).length_eq

theorem filter_by_radius_length_le (center_lat center_lon : ℝ)
    (locations : List Loc) (radius_km : ℝ) :
    (filter_by_radius center_lat center_lon locations radius_km).length ≤ locations.length := by
  unfold filter_by_radius
  calc (List.insertionSort _ _).length
      = _ := length_insertionSort _ _
    _ ≤ (List.filterMap _ locations).length := List.length_filter_le _ _
    _ ≤ locations.length := List.length_filterMap_le _ _

open Classical in
/-- Model of `build_proximal_recommendations`, instrumented: the second component
counts how many times the insufficient-results branch recursed with a
tripled radius.  The first component is exactly the source's return value.

Termination: the recursion fires only when the 3× filter finds strictly
more venues than the current one, so `locations.length - |filter radius|`
strictly decreases. -/
noncomputable def build_proximal_recommendations_aux
    (user_id : String) (center_lat center_lon : ℝ) (locations : List Loc)
    (user_tags : List UserTagRow) (location_tags : List LocationTagRow)
    (config : ProximalConfig) : List ScoredRow × Nat :=
  let nearby0 := filter_by_radius center_lat center_lon locations config.radius_km
  -- if nothing in radius, expand search once at 2× the radius
  let nearby := if nearby0 = [] then
    filter_by_radius center_lat center_lon locations (config.radius_km * 2) else nearby0
  if nearby = [] then ([], 0) else
  let taste := compute_taste_score user_id (nearby.map fun r => r.loc.location_id)
    user_tags location_tags
  -- component scores and the weighted blend; note the proximity score is
  -- computed against `config.radius_km` (the originally requested radius)
  let scored := nearby.map fun r =>
    ({ location_id := r.loc.location_id
       distance_km := r.distance_km
       taste_score := taste r.loc.location_id
       proximity_score := compute_proximity_score r.distance_km config.radius_km
       quality_score := compute_quality_score r.loc
       final_score := config.taste_weight * taste r.loc.location_id +
         config.proximity_weight * compute_proximity_score r.distance_km config.radius_km +
         config.quality_weight * compute_quality_score r.loc
       rank := 0 } : ScoredRow)
  let ranked := assignRanks 1
    (List.insertionSort (fun a b : ScoredRow => b.final_score ≤ a.final_score) scored)
  let result := ranked.take config.max_results
  if h1 : result.length < config.min_results ∧ ranked.length < config.min_results then
    if h2 : nearby.length <
        (filter_by_radius center_lat center_lon locations (config.radius_km * 3)).length then
      let rec_result := build_proximal_recommendations_aux user_id center_lat center_lon
        locations user_tags location_tags { config with radius_km := config.radius_km * 3 }
      (rec_result.1, rec_result.2 + 1)
    else (result, 0)
  else (result, 0)
termination_by
  locations.length - (filter_by_radius center_lat center_lon locations config.radius_km).length
decreasing_by
  have hle := filter_by_radius_length_le center_lat center_lon locations (config.radius_km * 3)
  by_cases hempty : filter_by_radius center_lat center_lon locations config.radius_km = []
  · have h3 := Nat.lt_of_le_of_lt (Nat.zero_le _) h2
    have h0 : (filter_by_radius center_lat center_lon locations config.radius_km).length = 0 := by
      rw [hempty]; rfl
    omega
  · unfold nearby nearby0 at h2
    rw [dif_neg hempty] at h2
    omega

/-- The source's `build_proximal_recommendations`. -/
noncomputable def build_proximal_recommendations
    (user_id : String) (center_lat center_lon : ℝ) (locations : List Loc)
    (user_tags : List UserTagRow) (location_tags : List LocationTagRow)
    (config : ProximalConfig) : List ScoredRow :=
  (build_proximal_recommendations_aux user_id center_lat center_lon locations
    user_tags location_tags config).1

/-! ### Concrete geometry: points on the equator

For counterexample inputs we place venues on the equator, where the
haversine distance reduces to the arc length and can be computed exactly. -/

/-- Longitude (degrees) of the equator point at arc distance `d` km east of
the origin. -/
noncomputable def lonAt (d : ℝ) : ℝ := d * 180 / (6371 * π)

theorem haversine_equator {d : ℝ} (h0 : 0 ≤ d) (h1 : d ≤ 6371 * π) :
    haversine_distance 0 0 0 (lonAt d) = d := by
  have hπ : (0 : ℝ) < π := Real.pi_pos
  have hx : (lonAt d - 0) * π / 180 / 2 = d / 12742 := by
    unfold lonAt
    field_simp
    ring
  simp only [haversine_distance]
  rw [show ((0 : ℝ) - 0) * π / 180 / 2 = 0 by ring, show (0 : ℝ) * π / 180 = 0 by ring, hx]
  rw [Real.sin_zero, Real.cos_zero]
  have hsin : 0 ≤ Real.sin (d / 12742) := by
    apply Real.sin_nonneg_of_nonneg_of_le_pi
    · positivity
    · nlinarith
  rw [show (0 : ℝ) ^ 2 + 1 * 1 * Real.sin (d / 12742) ^ 2 = Real.sin (d / 12742) ^ 2 by ring]
  rw [Real.sqrt_sq hsin]
  rw [Real.arcsin_sin (by nlinarith) (by nlinarith)]
  ring

/-- An equator venue at arc distance `d` km from the origin. -/
noncomputable def equatorLoc (id : Nat) (d : ℝ) : Loc :=
  ⟨id, some 0, some (lonAt d), some 4, some 100⟩

theorem equator_dist {i : Nat} {d : ℝ} (h0 : 0 ≤ d) (h1 : d ≤ 19113) :
    calculateDistance 0 0 (equatorLoc i d) = some d := by
  have h2 : d ≤ 6371 * π := by nlinarith [Real.pi_gt_three]
  simp only [calculateDistance, equatorLoc]
  rw [haversine_equator h0 h2]

theorem filter_single_out {id : Nat} {d r : ℝ} (h0 : 0 ≤ d) (h1 : d ≤ 19113)
    (hr : ¬ d ≤ r) : filter_by_radius 0 0 [equatorLoc id d] r = [] := by
  unfold filter_by_radius
  simp [equator_dist h0 h1, hr]

theorem filter_single_in {id : Nat} {d r : ℝ} (h0 : 0 ≤ d) (h1 : d ≤ 19113)
    (hr : d ≤ r) : filter_by_radius 0 0 [equatorLoc id d] r = [⟨equatorLoc id d, d⟩] := by
  unfold filter_by_radius
  simp [equator_dist h0 h1, hr, List.insertionSort]

/-! ### C2 counterexample input: three equator venues at 1, 4 and 16 km -/

/-- Inventory for the radius-expansion counterexample. -/
noncomputable def c2Locs : List Loc :=
  [equatorLoc 1 1, equatorLoc 2 4, equatorLoc 3 16]

/-- Proximal request with `radius_km = 2`, `min_results = 5`. -/
noncomputable def c2Config : ProximalConfig := { radius_km := 2, min_results := 5 }

theorem c2_filter_small {r : ℝ} (ha : (1:ℝ) ≤ r) (hb : ¬ (4:ℝ) ≤ r) :
    filter_by_radius 0 0 c2Locs r = [⟨equatorLoc 1 1, 1⟩] := by
  have h1 := equator_dist (i := 1) (by norm_num : (0:ℝ) ≤ 1) (by norm_num : (1:ℝ) ≤ 19113)
  have h2 := equator_dist (i := 2) (by norm_num : (0:ℝ) ≤ 4) (by norm_num : (4:ℝ) ≤ 19113)
  have h3 := equator_dist (i := 3) (by norm_num : (0:ℝ) ≤ 16) (by norm_num : (16:ℝ) ≤ 19113)
  have hc : ¬ (16:ℝ) ≤ r := by linarith
  unfold filter_by_radius c2Locs
  simp [h1, h2, h3, ha, hb, hc, List.insertionSort]

theorem c2_filter_mid {r : ℝ} (ha : (4:ℝ) ≤ r) (hb : ¬ (16:ℝ) ≤ r) :
    filter_by_radius 0 0 c2Locs r = [⟨equatorLoc 1 1, 1⟩, ⟨equatorLoc 2 4, 4⟩] := by
  have h1 := equator_dist (i := 1) (by norm_num : (0:ℝ) ≤ 1) (by norm_num : (1:ℝ) ≤ 19113)
  have h2 := equator_dist (i := 2) (by norm_num : (0:ℝ) ≤ 4) (by norm_num : (4:ℝ) ≤ 19113)
  have h3 := equator_dist (i := 3) (by norm_num : (0:ℝ) ≤ 16) (by norm_num : (16:ℝ) ≤ 19113)
  have hc : (1:ℝ) ≤ r := by linarith
  unfold filter_by_radius c2Locs
  simp [h1, h2, h3, ha, hb, hc, List.insertionSort, List.orderedInsert]

theorem c2_filter_big {r : ℝ} (ha : (16:ℝ) ≤ r) :
    filter_by_radius 0 0 c2Locs r =
      [⟨equatorLoc 1 1, 1⟩, ⟨equatorLoc 2 4, 4⟩, ⟨equatorLoc 3 16, 16⟩] := by
  have h1 := equator_dist (i := 1) (by norm_num : (0:ℝ) ≤ 1) (by norm_num : (1:ℝ) ≤ 19113)
  have h2 := equator_dist (i := 2) (by norm_num : (0:ℝ) ≤ 4) (by norm_num : (4:ℝ) ≤ 19113)
  have h3 := equator_dist (i := 3) (by norm_num : (0:ℝ) ≤ 16) (by norm_num : (16:ℝ) ≤ 19113)
  have hb : (4:ℝ) ≤ r := by linarith
  have hc : (1:ℝ) ≤ r := by linarith
  unfold filter_by_radius c2Locs
  simp [h1, h2, h3, ha, hb, hc, List.insertionSort, List.orderedInsert]
  norm_num

theorem c2_depth_terminal (cfg : ProximalConfig) (hr : cfg.radius_km = 18)
    (hmin : cfg.min_results = 5) :
    (build_proximal_recommendations_aux "u" 0 0 c2Locs [] [] cfg).2 = 0 := by
  rw [build_proximal_recommendations_aux.eq_def, hr, hmin]
  rw [c2_filter_big (by norm_num : (16:ℝ) ≤ 18)]
  rw [c2_filter_big (by norm_num : (16:ℝ) ≤ 18 * 3)]
  simp [length_insertionSort]

theorem c2_depth_mid (cfg : ProximalConfig) (hr : cfg.radius_km = 6)
    (hmin : cfg.min_results = 5) :
    (build_proximal_recommendations_aux "u" 0 0 c2Locs [] [] cfg).2 = 1 := by
  have hterm := c2_depth_terminal
    { radius_km := 6 * 3, min_results := 5, max_results := cfg.max_results,
      taste_weight := cfg.taste_weight, proximity_weight := cfg.proximity_weight,
      quality_weight := cfg.quality_weight } (by norm_num) rfl
  rw [build_proximal_recommendations_aux.eq_def, hr, hmin]
  rw [c2_filter_mid (by norm_num : (4:ℝ) ≤ 6) (by norm_num : ¬ (16:ℝ) ≤ 6)]
  rw [c2_filter_big (by norm_num : (16:ℝ) ≤ 6 * 3)]
  dsimp only
  rw [if_neg (List.cons_ne_nil _ _)]
  rw [if_neg (List.cons_ne_nil _ _)]
  split
  case isFalse h1 =>
    exfalso
    apply h1
    constructor
    · simp only [List.length_take, length_assignRanks, length_insertionSort, List.length_map,
        List.length_cons, List.length_nil]
      omega
    · simp only [length_assignRanks, length_insertionSort, List.length_map,
        List.length_cons, List.length_nil]
      omega
  case isTrue h1 =>
    split
    case isFalse h2 =>
      exfalso
      apply h2
      simp
    case isTrue h2 =>
      dsimp only
      rw [hterm]

theorem c2_depth_full :
    (build_proximal_recommendations_aux "u" 0 0 c2Locs [] [] c2Config).2 = 2 := by
  have hmid := c2_depth_mid
    { radius_km := 2 * 3, min_results := 5, max_results := 50,
      taste_weight := c2Config.taste_weight, proximity_weight := c2Config.proximity_weight,
      quality_weight := c2Config.quality_weight } (by norm_num) rfl
  rw [build_proximal_recommendations_aux.eq_def]
  rw [show c2Config.radius_km = 2 from rfl, show c2Config.min_results = 5 from rfl,
      show c2Config.max_results = 50 from rfl]
  rw [c2_filter_small (by norm_num : (1:ℝ) ≤ 2) (by norm_num : ¬ (4:ℝ) ≤ 2)]
  rw [c2_filter_mid (by norm_num : (4:ℝ) ≤ 2 * 3) (by norm_num : ¬ (16:ℝ) ≤ 2 * 3)]
  dsimp only
  rw [if_neg (List.cons_ne_nil _ _)]
  rw [if_neg (List.cons_ne_nil _ _)]
  split
  case isFalse h1 =>
    exfalso
    apply h1
    constructor
    · simp only [List.length_take, length_assignRanks, length_insertionSort, List.length_map,
        List.length_cons, List.length_nil]
      omega
    · simp only [length_assignRanks, length_insertionSort, List.length_map,
        List.length_cons, List.length_nil]
      omega
  case isTrue h1 =>
    split
    case isFalse h2 =>
      exfalso
      apply h2
      simp
    case isTrue h2 =>
      dsimp only
      rw [hmid]

theorem aux_depth_le (u : String) (clat clon : ℝ) (locs : List Loc)
    (ut : List UserTagRow) (lts : List LocationTagRow) :
    ∀ (n : Nat) (cfg : ProximalConfig),
      locs.length - (filter_by_radius clat clon locs cfg.radius_km).length ≤ n →
      (build_proximal_recommendations_aux u clat clon locs ut lts cfg).2 ≤
        locs.length - (filter_by_radius clat clon locs cfg.radius_km).length := by
  intro n
  induction n with
  | zero =>
    intro cfg hle
    have hb3 := filter_by_radius_length_le clat clon locs (cfg.radius_km * 3)
    have hb1 := filter_by_radius_length_le clat clon locs cfg.radius_km
    rw [build_proximal_recommendations_aux.eq_def]
    dsimp only
    by_cases hnil : filter_by_radius clat clon locs cfg.radius_km = []
    · have h0 : (filter_by_radius clat clon locs cfg.radius_km).length = 0 := by
        rw [hnil]; rfl
      rw [if_pos hnil]
      by_cases hnil2 : filter_by_radius clat clon locs (cfg.radius_km * 2) = []
      · rw [if_pos hnil2]
        simp
      · rw [if_neg hnil2]
        split
        · split
          · rename_i h2
            exfalso
            omega
          · simp
        · simp
    · rw [if_neg hnil, if_neg hnil]
      split
      · split
        · rename_i h2
          exfalso
          omega
        · simp
      · simp
  | succ n ih =>
    intro cfg hle
    have hb3 := filter_by_radius_length_le clat clon locs (cfg.radius_km * 3)
    have hb1 := filter_by_radius_length_le clat clon locs cfg.radius_km
    have ihc := ih { cfg with radius_km := cfg.radius_km * 3 }
    dsimp only at ihc
    rw [build_proximal_recommendations_aux.eq_def]
    dsimp only
    by_cases hnil : filter_by_radius clat clon locs cfg.radius_km = []
    · have h0 : (filter_by_radius clat clon locs cfg.radius_km).length = 0 := by
        rw [hnil]; rfl
      rw [if_pos hnil]
      by_cases hnil2 : filter_by_radius clat clon locs (cfg.radius_km * 2) = []
      · rw [if_pos hnil2]
        simp
      · rw [if_neg hnil2]
        split
        · split
          · rename_i h2
            have := ihc (by omega)
            dsimp only
            omega
          · simp
        · simp
    · rw [if_neg hnil, if_neg hnil]
      split
      · split
        · rename_i h2
          have := ihc (by omega)
          dsimp only
          omega
        · simp
      · simp

/-- Claim C2 (counterexample).  Venues at 1, 4 and 16 km from the center,
`radius_km = 2`, `min_results = 5`: the insufficient-results retry recurses
twice (radius 2 → 6 → 18), so it is not terminal after one 3× expansion —
the claimed bound of at most one expansion is violated. -/
theorem C2_counterexample_two_expansions :
    (build_proximal_recommendations_aux "u" 0 0 c2Locs [] [] c2Config).2 = 2 ∧
      ¬ (build_proximal_recommendations_aux "u" 0 0 c2Locs [] [] c2Config).2 ≤ 1 := by
  have h := c2_depth_full
  exact ⟨h, by omega⟩

/-- Claim C2 (amended).  The insufficient-results retry recurses with a 3×
radius only while the widened filter strictly grows the set of venues
found, so the number of expansions is bounded by the size of the
inventory (rather than by one); in particular the recursion terminates. -/
theorem C2_expansion_count_le_inventory (u : String) (clat clon : ℝ) (locs : List Loc)
    (ut : List UserTagRow) (lts : List LocationTagRow) (cfg : ProximalConfig) :
    (build_proximal_recommendations_aux u clat clon locs ut lts cfg).2 ≤ locs.length := by
  have h := aux_depth_le u clat clon locs ut lts locs.length cfg (by omega)
  omega

/-- Claim C1.  A single venue 3 km from the center, requested radius 2 km:
the initial filter is empty, the search retries at the doubled radius
(4 km) and finds the venue (its `distance_km` is 3 > 2), but the returned
proximity score is `exp(-2·3/2) = exp(-3)` — computed against the
*original* 2 km radius — and differs from `exp(-2·3/4)`, the score
against the doubled radius that was actually used for filtering. -/
theorem C1_empty_retry_scored_against_original_radius :
    (build_proximal_recommendations "u" 0 0 [equatorLoc 1 3] [] []
        { radius_km := 2 }).map (fun row => (row.distance_km, row.proximity_score)) =
      [(3, Real.exp (-3))] ∧
    Real.exp (-3) ≠ compute_proximity_score 3 (2 * 2) := by
  constructor
  · unfold build_proximal_recommendations
    rw [build_proximal_recommendations_aux.eq_def]
    dsimp only
    rw [filter_single_out (by norm_num) (by norm_num) (by norm_num : ¬ (3:ℝ) ≤ 2)]
    rw [filter_single_in (by norm_num) (by norm_num) (by norm_num : (3:ℝ) ≤ 2 * 2)]
    rw [filter_single_in (by norm_num) (by norm_num) (by norm_num : (3:ℝ) ≤ 2 * 3)]
    rw [if_pos rfl]
    rw [if_neg (List.cons_ne_nil _ _)]
    split
    · split
      · rename_i h2
        exfalso
        simp at h2
      · dsimp only
        simp [List.insertionSort, List.orderedInsert, assignRanks, compute_proximity_score]
        norm_num
    · rename_i h1
      exfalso
      apply h1
      constructor
      · simp only [List.length_take, length_assignRanks, length_insertionSort, List.length_map,
          List.length_cons, List.length_nil]
        omega
      · simp only [length_assignRanks, length_insertionSort, List.length_map,
          List.length_cons, List.length_nil]
        omega
  · unfold compute_proximity_score
    rw [Ne, Real.exp_eq_exp]
    norm_num

/-! ## User profile builder (src/recommendation/user_profiles.py, src/config.py) -/

/-- Model of `str.lower()`: lowercase a string character-wise. -/
def strLower (s : String) : String := ⟨s.data.map Char.toLower⟩

/-- Model of `DEFAULT_ACTION_WEIGHTS` from `src/config.py` — note the key for shares
is `"share_to_bubble"`.  `none` models a key absent from the dict. -/
noncomputable def DEFAULT_ACTION_WEIGHTS (action : String) : Option ℝ :=
  if action = "save" then some 3.0
  else if action = "like" then some 2.0
  else if action = "share_to_bubble" then some 2.5
  else if action = "detail_view" then some 0.5
  else if action = "impression" then some 0.1
  else if action = "dismiss" then some (-1.5)
  else none

/-- Model of `RECENCY_HALFLIFE_DAYS` from `src/config.py`. -/
noncomputable def RECENCY_HALFLIFE_DAYS : ℝ := 30.0

/-- A row of the raw user-action log.  `created_at` is a timestamp measured
in days; `none` models a missing/unparseable timestamp (`NaT` after
`pd.to_datetime(..., errors="coerce")`). -/
structure ActionRow where
  user_id : String
  place_id : String
  action : String
  created_at : Option ℝ

/-- A row of the canonical location inventory (the columns the profile
builder and the global blender read). -/
structure LocationRow where
  location_id : Nat
  google_place_id : String
  popularity_score : ℝ
  hidden_gem_score : ℝ
  quality_score : ℝ

/-- An action row after its `place_id` has been resolved to a
`location_id`. -/
structure ResolvedAction where
  user_id : String
  place_id : String
  action : String
  created_at : Option ℝ
  location_id : Nat

/-- A weighted action row (the `weight` column added by
`_apply_action_weights`; its `action` column has been lowercased). -/
structure WAction where
  user_id : String
  place_id : String
  action : String
  created_at : Option ℝ
  location_id : Nat
  weight : ℝ

/-- Model of `locations.set_index("google_place_id")["location_id"].to_dict()`:
building a dict by iterating rows means the *last* occurrence of a key
wins. -/
def place_to_location (locations : List LocationRow) (place : String) : Option Nat :=
  (locations.reverse.find? fun r => r.google_place_id == place).map fun r => r.location_id

/-- Map `place_id` to `location_id` and drop unresolvable rows
(`dropna(subset=["location_id"])`). -/
def resolveActions (actions : List ActionRow) (locations : List LocationRow) :
    List ResolvedAction :=
  actions.filterMap fun a => (place_to_location locations a.place_id).map fun lid =>
    { user_id := a.user_id, place_id := a.place_id, action := a.action,
      created_at := a.created_at, location_id := lid }

/-- Model of `age_days`: time since the action, `NaT → 0` (`fillna(0.0)`), clipped
below at 0. -/
noncomputable def actionAge (now : ℝ) (created_at : Option ℝ) : ℝ :=
  match created_at with
  | some t => max 0 (now - t)
  | none => 0

/-- Per-action effective weight: the action-type weight (0 for unknown
types, `fillna(0.0)`) times the exponential recency decay. -/
noncomputable def effectiveWeight (now : ℝ) (a : ResolvedAction) : ℝ :=
  (DEFAULT_ACTION_WEIGHTS (strLower a.action)).getD 0 *
    Real.exp (-(actionAge now a.created_at) / RECENCY_HALFLIFE_DAYS)

open Classical in
/-- Model of `_apply_action_weights`: lowercase the action type, attach the
effective weight, drop rows whose weight is exactly 0. -/
noncomputable def apply_action_weights (now : ℝ) (actions : List ResolvedAction) :
    List WAction :=
  (actions.map fun a =>
    ({ user_id := a.user_id, place_id := a.place_id, action := strLower a.action,
       created_at := a.created_at, location_id := a.location_id,
       weight := effectiveWeight now a } : WAction)).filter fun r => decide (r.weight ≠ 0)

/-- A weighted action joined with one matching location-tag row;
`contrib = weight × (score/100)`. -/
structure MergedRow where
  user_id : String
  tag_id : Nat
  tag_text : String
  weight : ℝ
  tag_score : ℝ
  contrib : ℝ

open Classical in
/-- The inner merge of weighted actions with `location_tags` on
`location_id`, with the `contrib` column added. -/
noncomputable def mergeActionsTags (wactions : List WAction)
    (location_tags : List LocationTagRow) : List MergedRow :=
  wactions.flatMap fun a =>
    (location_tags.filter fun t => decide (t.location_id = a.location_id)).map fun t =>
      { user_id := a.user_id, tag_id := t.tag_id, tag_text := t.tag_text,
        weight := a.weight, tag_score := t.score, contrib := a.weight * (t.score / 100) }

/-- One aggregated `(user, tag)` contribution. -/
structure AggRow where
  user_id : String
  tag_id : Nat
  tag_text : String
  contrib : ℝ

/-- The groupby key of a merged row. -/
def mergedKey (r : MergedRow) : String × Nat × String := (r.user_id, r.tag_id, r.tag_text)

/-- Lexicographic order on groupby keys (pandas sorts group keys). -/
def keyLe (a b : String × Nat × String) : Prop :=
  a.1 < b.1 ∨ (a.1 = b.1 ∧ (a.2.1 < b.2.1 ∨ (a.2.1 = b.2.1 ∧ a.2.2 ≤ b.2.2)))

open Classical in
/-- Model of `merged.groupby(["user_id", "tag_id", "tag_text"])["contrib"].sum()`. -/
noncomputable def aggregateContribs (merged : List MergedRow) : List AggRow :=
  (List.insertionSort keyLe (merged.map mergedKey).dedup).map fun k =>
    { user_id := k.1, tag_id := k.2.1, tag_text := k.2.2,
      contrib := ((merged.filter fun r => decide (mergedKey r = k)).map fun r => r.contrib).sum }

/-- Model of `pandas.Series.max` of a nonempty series. -/
noncomputable def seriesMax : List ℝ → ℝ
  | [] => 0
  | x :: xs => xs.foldl max x

open Classical in
/-- The maximum accumulated contribution of one user's group. -/
noncomputable def userMaxContrib (agg : List AggRow) (user : String) : ℝ :=
  seriesMax ((agg.filter fun r => decide (r.user_id = user)).map fun r => r.contrib)

/-- A row of the user-tag affinity output; `metadata` is the raw
accumulated contribution recorded in the JSON payload (`raw_score`). -/
structure AffRow where
  user_id : String
  tag_id : Nat
  tag_text : String
  score : ℝ
  metadata : ℝ

open Classical in
/-- Model of `_normalize`, applied per user group: scores become
`contrib / max × 100`, or 0 throughout when the user's max is ≤ 0. -/
noncomputable def normalizePerUser (agg : List AggRow) : List AffRow :=
  agg.map fun r =>
    { user_id := r.user_id, tag_id := r.tag_id, tag_text := r.tag_text,
      score := if userMaxContrib agg r.user_id ≤ 0 then 0
               else r.contrib / userMaxContrib agg r.user_id * 100,
      metadata := r.contrib }

/-- Model of `sort_values(by=["user_id", "score"], ascending=[True, False])`. -/
def affLe (a b : AffRow) : Prop :=
  a.user_id < b.user_id ∨ (a.user_id = b.user_id ∧ b.score ≤ a.score)

open Classical in
noncomputable def sortAffinities (l : List AffRow) : List AffRow :=
  List.insertionSort affLe l

/-- Model of `groupby("user_id").head(25)`: keep, per user, the first `n` rows in
list order.  `seen` records the users of rows already processed. -/
def headPerUserAux (n : Nat) : List AffRow → List String → List AffRow
  | [], _ => []
  | r :: rest, seen =>
    if seen.count r.user_id < n then r :: headPerUserAux n rest (r.user_id :: seen)
    else headPerUserAux n rest (r.user_id :: seen)

def headPerUser (n : Nat) (l : List AffRow) : List AffRow := headPerUserAux n l []

/-- A row of the per-user history summary. -/
structure HistRow where
  user_id : String
  n_actions : Nat

open Classical in
/-- Model of `df_actions.groupby("user_id").size()` (group keys sorted ascending),
then `sort_values(by="n_actions", ascending=False)`. -/
noncomputable def userHistory (wactions : List WAction) : List HistRow :=
  List.insertionSort (fun a b : HistRow => b.n_actions ≤ a.n_actions)
    ((List.insertionSort (fun a b : String => a ≤ b) (wactions.map fun r => r.user_id).dedup).map
      fun u => { user_id := u,
                 n_actions := (wactions.filter fun r => decide (r.user_id = u)).length })

open Classical in
/-- Model of `build_user_tag_affinities`: the full affinity pipeline.  `now` makes
the wall-clock timestamp the source reads (`pd.Timestamp.utcnow()`) an
explicit parameter. -/
noncomputable def build_user_tag_affinities (now : ℝ) (user_actions : List ActionRow)
    (location_tags : List LocationTagRow) (locations : List LocationRow) :
    List AffRow × List HistRow :=
  if user_actions = [] ∨ location_tags = [] then ([], []) else
  let df_actions := apply_action_weights now (resolveActions user_actions locations)
  if df_actions = [] then ([], []) else
  let merged := mergeActionsTags df_actions location_tags
  if merged = [] then ([], []) else
  let agg := aggregateContribs merged
  (headPerUser 25 (sortAffinities (normalizePerUser agg)), userHistory df_actions)

/-- Membership in the weighted-action table. -/
theorem mem_apply_action_weights {now : ℝ} {actions : List ResolvedAction} {r : WAction} :
    r ∈ apply_action_weights now actions ↔
      ∃ a ∈ actions, effectiveWeight now a ≠ 0 ∧
        r = { user_id := a.user_id, place_id := a.place_id, action := strLower a.action,
              created_at := a.created_at, location_id := a.location_id,
              weight := effectiveWeight now a } := by
  unfold apply_action_weights
  constructor
  · intro hr
    have hr2 := List.mem_filter.mp hr
    obtain ⟨a, ha, hae⟩ := List.mem_map.mp hr2.1
    refine ⟨a, ha, ?_, hae.symm⟩
    rw [← hae] at hr2
    have h3 := hr2.2
    simp at h3
    exact h3
  · rintro ⟨a, ha, hw, rfl⟩
    refine List.mem_filter.mpr ⟨List.mem_map.mpr ⟨a, ha, rfl⟩, ?_⟩
    simpa using hw

/-- Claim C3 (counterexample).  An action of type `"share"` (present and
zero days old, resolving to venue 1) is dropped by the weighting step —
the weight table has no `"share"` key, only `"share_to_bubble"` — even
though the claimed weight `2.5 × exp(-0/30)` is nonzero. -/
theorem C3_share_action_dropped :
    apply_action_weights 0 [⟨"u", "p", "share", some 0, 1⟩] = [] ∧
      (2.5 : ℝ) * Real.exp (-(0 : ℝ) / 30) ≠ 0 := by
  constructor
  · unfold apply_action_weights effectiveWeight
    simp [show strLower "share" = "share" from by decide,
      show DEFAULT_ACTION_WEIGHTS "share" = none from by rfl]
  · have := Real.exp_pos (-(0 : ℝ) / 30)
    nlinarith

/-- Claim C3 (amended).  Every row the weighting step keeps carries weight
`table(action_type) × exp(-age_days/30)`, where the table is
`{save: 3.0, like: 2.0, share_to_bubble: 2.5, detail_view: 0.5,
impression: 0.1, dismiss: −1.5}` over the lowercased action type (unknown
types get weight 0); rows with zero net weight — in particular every
`"share"` action — are dropped before affinity aggregation, and every
action with nonzero net weight is kept. -/
theorem C3_action_weighting (now : ℝ) (actions : List ResolvedAction) :
    (∀ r ∈ apply_action_weights now actions,
        ∃ a ∈ actions, r.action = strLower a.action ∧
          r.weight = (DEFAULT_ACTION_WEIGHTS (strLower a.action)).getD 0 *
            Real.exp (-(actionAge now a.created_at) / RECENCY_HALFLIFE_DAYS) ∧
          r.weight ≠ 0) ∧
    (∀ a ∈ actions, effectiveWeight now a ≠ 0 →
        ∃ r ∈ apply_action_weights now actions,
          r.user_id = a.user_id ∧ r.location_id = a.location_id ∧
          r.action = strLower a.action ∧ r.weight = effectiveWeight now a) ∧
    (∀ r ∈ apply_action_weights now actions, r.action ≠ "share") ∧
    DEFAULT_ACTION_WEIGHTS "share_to_bubble" = some 2.5 ∧
    DEFAULT_ACTION_WEIGHTS "share" = none := by
  refine ⟨?_, ?_, ?_, by rfl, by rfl⟩
  · intro r hr
    obtain ⟨a, ha, hw, rfl⟩ := mem_apply_action_weights.mp hr
    exact ⟨a, ha, rfl, rfl, hw⟩
  · intro a ha hw
    exact ⟨_, mem_apply_action_weights.mpr ⟨a, ha, hw, rfl⟩, rfl, rfl, rfl, rfl⟩
  · intro r hr
    obtain ⟨a, _, hw, rfl⟩ := mem_apply_action_weights.mp hr
    intro hshare
    dsimp only at hshare
    apply hw
    unfold effectiveWeight
    rw [hshare]
    rw [show DEFAULT_ACTION_WEIGHTS "share" = none from by rfl]
    simp

/-- Witness for C3: a `"share_to_bubble"` action of age 0 is kept with
weight `2.5 × exp(0)`. -/
theorem C3_action_weighting_witness :
    ∃ r ∈ apply_action_weights 0 [⟨"u", "p", "share_to_bubble", some 0, 1⟩],
      r.user_id = "u" ∧ r.location_id = 1 ∧ r.action = strLower "share_to_bubble" ∧
      r.weight = effectiveWeight 0 ⟨"u", "p", "share_to_bubble", some 0, 1⟩ := by
  have h : effectiveWeight 0 ⟨"u", "p", "share_to_bubble", some 0, 1⟩ ≠ 0 := by
    unfold effectiveWeight
    rw [show strLower "share_to_bubble" = "share_to_bubble" from by decide]
    rw [show DEFAULT_ACTION_WEIGHTS "share_to_bubble" = some 2.5 from by rfl]
    have := Real.exp_pos (-(actionAge 0 (some 0)) / RECENCY_HALFLIFE_DAYS)
    simp only [Option.getD_some]
    nlinarith
  exact (C3_action_weighting 0 [⟨"u", "p", "share_to_bubble", some 0, 1⟩]).2.1
    ⟨"u", "p", "share_to_bubble", some 0, 1⟩ (by simp) h

/-! ### Order and maximum helper lemmas for the affinity pipeline -/

theorem le_foldl_max {xs : List ℝ} : ∀ {x a : ℝ}, a = x ∨ a ∈ xs → a ≤ xs.foldl max x := by
  induction xs with
  | nil =>
    intro x a h
    rcases h with rfl | h
    · simp
    · simp at h
  | cons y ys ih =>
    intro x a h
    rcases h with rfl | h
    · calc a ≤ max a y := le_max_left a y
        _ ≤ ys.foldl max (max a y) := ih (Or.inl rfl)
    · rcases List.mem_cons.mp h with rfl | h
      · calc a ≤ max x a := le_max_right x a
          _ ≤ ys.foldl max (max x a) := ih (Or.inl rfl)
      · exact ih (Or.inr h)

theorem foldl_max_mem (xs : List ℝ) : ∀ x : ℝ, xs.foldl max x = x ∨ xs.foldl max x ∈ xs := by
  induction xs with
  | nil => intro x; simp
  | cons y ys ih =>
    intro x
    rcases ih (max x y) with h | h
    · rcases max_choice x y with hm | hm
      · exact Or.inl (by simpa [hm] using h)
      · refine Or.inr (List.mem_cons.mpr (Or.inl ?_))
        simpa [hm] using h
    · exact Or.inr (List.mem_cons.mpr (Or.inr (by simpa using h)))

theorem le_seriesMax {l : List ℝ} {a : ℝ} (h : a ∈ l) : a ≤ seriesMax l := by
  cases l with
  | nil => simp at h
  | cons x xs =>
    rcases List.mem_cons.mp h with rfl | h
    · exact le_foldl_max (Or.inl rfl)
    · exact le_foldl_max (Or.inr h)

theorem seriesMax_mem {l : List ℝ} (h : l ≠ []) : seriesMax l ∈ l := by
  cases l with
  | nil => exact absurd rfl h
  | cons x xs =>
    rcases foldl_max_mem xs x with h2 | h2
    · exact List.mem_cons.mpr (Or.inl (by simpa [seriesMax] using h2))
    · exact List.mem_cons.mpr (Or.inr (by simpa [seriesMax] using h2))

open Classical in
theorem contrib_le_userMaxContrib {agg : List AggRow} {r : AggRow} (h : r ∈ agg) :
    r.contrib ≤ userMaxContrib agg r.user_id := by
  apply le_seriesMax
  exact List.mem_map.mpr ⟨r, List.mem_filter.mpr ⟨h, by simp⟩, rfl⟩

open Classical in
theorem exists_userMaxContrib_row {agg : List AggRow} {u : String}
    (h : ∃ r ∈ agg, r.user_id = u) :
    ∃ r ∈ agg, r.user_id = u ∧ r.contrib = userMaxContrib agg u := by
  obtain ⟨r0, hr0, hru⟩ := h
  have hne : ((agg.filter fun r => decide (r.user_id = u)).map fun r => r.contrib) ≠ [] := by
    have : r0 ∈ agg.filter fun r => decide (r.user_id = u) :=
      List.mem_filter.mpr ⟨hr0, by simp [hru]⟩
    intro hnil
    rw [List.map_eq_nil_iff] at hnil
    rw [hnil] at this
    simp at this
  have hmem := seriesMax_mem hne
  obtain ⟨r, hrf, hrc⟩ := List.mem_map.mp hmem
  have hr2 := List.mem_filter.mp hrf
  exact ⟨r, hr2.1, by simpa using hr2.2, hrc⟩

/-! ### head-per-user and find-first helper lemmas -/

theorem mem_of_mem_headPerUserAux {n : Nat} :
    ∀ {l : List AffRow} {seen : List String} {y : AffRow},
      y ∈ headPerUserAux n l seen → y ∈ l := by
  intro l
  induction l with
  | nil => intro seen y h; simp [headPerUserAux] at h
  | cons a t ih =>
    intro seen y h
    unfold headPerUserAux at h
    by_cases hc : seen.count a.user_id < n
    · rw [if_pos hc] at h
      rcases List.mem_cons.mp h with rfl | h
      · exact List.mem_cons.mpr (Or.inl rfl)
      · exact List.mem_cons.mpr (Or.inr (ih h))
    · rw [if_neg hc] at h
      exact List.mem_cons.mpr (Or.inr (ih h))

theorem find?_mem_headPerUserAux {n : Nat} (hn : 0 < n) {u : String} :
    ∀ {l : List AffRow} {seen : List String} {x : AffRow},
      l.find? (fun r => r.user_id == u) = some x → seen.count u = 0 →
      x ∈ headPerUserAux n l seen := by
  intro l
  induction l with
  | nil => intro seen x h _; simp at h
  | cons a t ih =>
    intro seen x h hcount
    by_cases hp : (a.user_id == u) = true
    · rw [List.find?_cons_of_pos (p := fun r : AffRow => r.user_id == u) _ hp] at h
      obtain rfl : a = x := by simpa using h
      have hau : a.user_id = u := by simpa using hp
      have hc : seen.count a.user_id < n := by
        rw [hau, hcount]; exact hn
      unfold headPerUserAux
      rw [if_pos hc]
      exact List.mem_cons.mpr (Or.inl rfl)
    · rw [List.find?_cons_of_neg (p := fun r : AffRow => r.user_id == u) _ hp] at h
      have hau : a.user_id ≠ u := by simpa using hp
      have hcount2 : (a.user_id :: seen).count u = 0 := by
        rw [List.count_cons]
        simp [hcount, hau]
      unfold headPerUserAux
      by_cases hc : seen.count a.user_id < n
      · rw [if_pos hc]
        exact List.mem_cons.mpr (Or.inr (ih h hcount2))
      · rw [if_neg hc]
        exact ih h hcount2

theorem find?_isSome_of_mem {α : Type} {p : α → Bool} :
    ∀ {l : List α} {x : α}, x ∈ l → p x = true → ∃ y, l.find? p = some y := by
  intro l
  induction l with
  | nil => intro x h _; simp at h
  | cons a t ih =>
    intro x h hp
    by_cases hpa : p a = true
    · exact ⟨a, List.find?_cons_of_pos _ hpa⟩
    · rcases List.mem_cons.mp h with rfl | h
      · exact absurd hp hpa
      · obtain ⟨y, hy⟩ := ih h hp
        exact ⟨y, by rw [List.find?_cons_of_neg _ hpa]; exact hy⟩

theorem find?_split {α : Type} {p : α → Bool} :
    ∀ {l : List α} {x : α}, l.find? p = some x →
      p x = true ∧ ∃ l₁ l₂, l = l₁ ++ x :: l₂ ∧ ∀ y ∈ l₁, p y = false := by
  intro l
  induction l with
  | nil => intro x h; simp at h
  | cons a t ih =>
    intro x h
    by_cases hpa : p a = true
    · rw [List.find?_cons_of_pos _ hpa] at h
      obtain rfl : a = x := by simpa using h
      exact ⟨hpa, [], t, rfl, by simp⟩
    · rw [List.find?_cons_of_neg _ hpa] at h
      obtain ⟨hpx, l₁, l₂, rfl, hl₁⟩ := ih h
      refine ⟨hpx, a :: l₁, l₂, rfl, ?_⟩
      intro y hy
      rcases List.mem_cons.mp hy with rfl | hy
      · simpa using hpa
      · exact hl₁ y hy

instance : IsTotal AffRow affLe := by
  constructor
  intro a b
  unfold affLe
  rcases lt_trichotomy a.user_id b.user_id with h | h | h
  · exact Or.inl (Or.inl h)
  · rcases le_total b.score a.score with hs | hs
    · exact Or.inl (Or.inr ⟨h, hs⟩)
    · exact Or.inr (Or.inr ⟨h.symm, hs⟩)
  · exact Or.inr (Or.inl h)

instance : IsTrans AffRow affLe := by
  constructor
  intro a b c hab hbc
  unfold affLe at hab hbc ⊢
  rcases hab with hab | ⟨hab, hsab⟩
  · rcases hbc with hbc | ⟨hbc, _⟩
    · exact Or.inl (lt_trans hab hbc)
    · exact Or.inl (hbc ▸ hab)
  · rcases hbc with hbc | ⟨hbc, hsbc⟩
    · exact Or.inl (hab ▸ hbc)
    · exact Or.inr ⟨hab.trans hbc, le_trans hsbc hsab⟩

theorem mergeActionsTags_nil (w : List WAction) : mergeActionsTags w [] = [] := by
  induction w with
  | nil => rfl
  | cons a t ih =>
    simp only [mergeActionsTags, List.flatMap_cons, List.filter_nil, List.map_nil,
      List.nil_append] at ih ⊢
    exact ih

/-- The aggregated `(user, tag)` contribution table of the affinity
pipeline, as a function of its inputs. -/
noncomputable def affinityAgg (now : ℝ) (user_actions : List ActionRow)
    (location_tags : List LocationTagRow) (locations : List LocationRow) : List AggRow :=
  aggregateContribs (mergeActionsTags
    (apply_action_weights now (resolveActions user_actions locations)) location_tags)

/-- Claim C4 (amended).  Every affinity row of a user whose maximum
accumulated contribution is positive is scored `raw_contrib / max × 100`
(the raw contribution is the row's recorded metadata), and every row of a
user whose maximum accumulated contribution is ≤ 0 is scored 0 — such
rows are kept, not dropped.  Whenever a user has an aggregated
contribution row and a positive maximum (e.g. some positive-weight action
resolving to a venue tag of positive score), that user's top output row
scores exactly 100. -/
theorem C4_affinity_normalization (now : ℝ) (user_actions : List ActionRow)
    (location_tags : List LocationTagRow) (locations : List LocationRow) :
    (∀ r ∈ (build_user_tag_affinities now user_actions location_tags locations).1,
        (0 < userMaxContrib (affinityAgg now user_actions location_tags locations) r.user_id →
          r.score = r.metadata /
            userMaxContrib (affinityAgg now user_actions location_tags locations) r.user_id *
              100) ∧
        (userMaxContrib (affinityAgg now user_actions location_tags locations) r.user_id ≤ 0 →
          r.score = 0)) ∧
    (∀ u : String,
        (∃ rr ∈ affinityAgg now user_actions location_tags locations, rr.user_id = u) →
        0 < userMaxContrib (affinityAgg now user_actions location_tags locations) u →
        ∃ r ∈ (build_user_tag_affinities now user_actions location_tags locations).1,
          r.user_id = u ∧ r.score = 100) := by
  classical
  unfold build_user_tag_affinities affinityAgg
  constructor
  · intro r hr
    split at hr
    · simp at hr
    · dsimp only at hr
      split at hr
      · simp at hr
      · split at hr
        · simp at hr
        · dsimp only at hr
          unfold headPerUser at hr
          have hr2 := mem_of_mem_headPerUserAux hr
          unfold sortAffinities at hr2
          have hr3 := (List.perm_insertionSort affLe _).mem_iff.mp hr2
          obtain ⟨ra, hramem, hraeq⟩ := List.mem_map.mp hr3
          rw [← hraeq]
          dsimp only
          constructor
          · intro hpos
            rw [if_neg (not_le.mpr hpos)]
          · intro hneg
            rw [if_pos hneg]
  · intro u hrr hupos
    split
    · rename_i hcond
      exfalso
      obtain ⟨rr, hmem, _⟩ := hrr
      rcases hcond with h | h
      · rw [h] at hmem
        simp [resolveActions, apply_action_weights, mergeActionsTags,
          aggregateContribs] at hmem
      · rw [h, mergeActionsTags_nil] at hmem
        simp [aggregateContribs] at hmem
    · dsimp only
      split
      · rename_i hdf
        exfalso
        obtain ⟨rr, hmem, _⟩ := hrr
        rw [hdf] at hmem
        simp [mergeActionsTags, aggregateContribs] at hmem
      · split
        · rename_i hmerged
          exfalso
          obtain ⟨rr, hmem, _⟩ := hrr
          rw [hmerged] at hmem
          simp [aggregateContribs] at hmem
        · dsimp only
          obtain ⟨rmax, hrmaxmem, hrmaxu, hrmaxc⟩ := exists_userMaxContrib_row hrr
          have hr1 : (⟨rmax.user_id, rmax.tag_id, rmax.tag_text,
              if userMaxContrib (aggregateContribs (mergeActionsTags
                  (apply_action_weights now (resolveActions user_actions locations))
                  location_tags)) rmax.user_id ≤ 0 then 0
                else rmax.contrib / userMaxContrib (aggregateContribs (mergeActionsTags
                  (apply_action_weights now (resolveActions user_actions locations))
                  location_tags)) rmax.user_id * 100,
              rmax.contrib⟩ : AffRow) ∈ normalizePerUser
                (aggregateContribs (mergeActionsTags
                  (apply_action_weights now (resolveActions user_actions locations))
                  location_tags)) :=
            List.mem_map.mpr ⟨rmax, hrmaxmem, rfl⟩
          set agg := aggregateContribs (mergeActionsTags
            (apply_action_weights now (resolveActions user_actions locations))
            location_tags) with hagg
          set r100 := (⟨rmax.user_id, rmax.tag_id, rmax.tag_text,
              if userMaxContrib agg rmax.user_id ≤ 0 then 0
                else rmax.contrib / userMaxContrib agg rmax.user_id * 100,
              rmax.contrib⟩ : AffRow) with hr100
          have hscore : r100.score = 100 := by
            rw [hr100]
            dsimp only
            rw [hrmaxu, hrmaxc, if_neg (not_le.mpr hupos)]
            rw [div_self (ne_of_gt hupos), one_mul]
          have hrS : r100 ∈ List.insertionSort affLe (normalizePerUser agg) :=
            (List.perm_insertionSort affLe _).mem_iff.mpr hr1
          have hp100 : (r100.user_id == u) = true := by
            rw [hr100]
            simp [hrmaxu]
          obtain ⟨x, hfind⟩ :=
            find?_isSome_of_mem (p := fun r : AffRow => r.user_id == u) hrS hp100
          obtain ⟨hpx, l₁, l₂, hSdecomp, hl₁⟩ := find?_split hfind
          have hxu : x.user_id = u := by simpa using hpx
          refine ⟨x, ?_, hxu, ?_⟩
          · unfold headPerUser sortAffinities
            exact find?_mem_headPerUserAux (by norm_num) hfind (by simp)
          · have hxS : x ∈ List.insertionSort affLe (normalizePerUser agg) := by
              rw [hSdecomp]
              exact List.mem_append.mpr (Or.inr (List.mem_cons.mpr (Or.inl rfl)))
            have hxn := (List.perm_insertionSort affLe _).mem_iff.mp hxS
            obtain ⟨xa, hxamem, hxaeq⟩ := List.mem_map.mp hxn
            have hxau : xa.user_id = u := by
              rw [← hxu, ← hxaeq]
            have hxale : xa.contrib ≤ userMaxContrib agg u := by
              have h2 := contrib_le_userMaxContrib hxamem
              rwa [hxau] at h2
            have hub : x.score ≤ 100 := by
              rw [← hxaeq]
              dsimp only
              rw [hxau, if_neg (not_le.mpr hupos)]
              have hq : xa.contrib / userMaxContrib agg u ≤ 1 :=
                (div_le_one hupos).mpr hxale
              nlinarith
            have hr100x : r100 = x ∨ r100 ∈ l₂ := by
              rw [hSdecomp] at hrS
              rcases List.mem_append.mp hrS with h | h
              · exact absurd hp100 (by simp [hl₁ _ h])
              · exact List.mem_cons.mp h
            have hlb : 100 ≤ x.score := by
              rcases hr100x with heq | hmem₂
              · rw [← heq, hscore]
              · have hsorted : List.Sorted affLe
                    (List.insertionSort affLe (normalizePerUser agg)) :=
                  List.sorted_insertionSort affLe _
                rw [hSdecomp] at hsorted
                have hpair := (List.pairwise_append.mp hsorted).2.1
                have haff : affLe x r100 := (List.pairwise_cons.mp hpair).1 r100 hmem₂
                unfold affLe at haff
                rcases haff with h | ⟨_, hs⟩
                · exfalso
                  rw [hxu] at h
                  have : r100.user_id = u := by rw [hr100]; exact hrmaxu
                  rw [this] at h
                  exact lt_irrefl u h
                · rw [hscore] at hs
                  exact hs
            exact le_antisymm hub hlb

/-- Claim C4 (counterexample).  A user whose only logged action is a
`"dismiss"` (weight −1.5) on a venue carrying one tag still receives an
affinity row, scored 0 — not "zero affinity rows" as stated. -/
theorem C4_counterexample_zero_score_rows_kept :
    ((build_user_tag_affinities 0 [⟨"u", "p", "dismiss", some 0⟩]
        [⟨1, 10, "t", 50⟩] [⟨1, "p", 0, 0, 0⟩]).1).map (fun r => (r.user_id, r.score)) =
      [("u", (0 : ℝ))] := by
  have hlow : strLower "dismiss" = "dismiss" := by decide
  have htab : DEFAULT_ACTION_WEIGHTS "dismiss" = some (-1.5) := by rfl
  unfold build_user_tag_affinities
  norm_num [resolveActions, place_to_location, apply_action_weights, effectiveWeight,
    actionAge, mergeActionsTags, aggregateContribs, mergedKey, normalizePerUser,
    userMaxContrib, seriesMax, sortAffinities, headPerUser, headPerUserAux,
    List.insertionSort, List.orderedInsert, hlow, htab, RECENCY_HALFLIFE_DAYS,
    Real.exp_zero, List.filterMap_cons, List.filterMap_nil, List.filter_cons,
    List.filter_nil, List.map_cons, List.map_nil, List.flatMap_cons, List.flatMap_nil,
    List.dedup_nil, List.dedup_cons_of_not_mem, List.find?_cons, List.reverse_cons,
    List.reverse_nil, List.count_nil, neg_zero, max_self]

/-- Witness for C4: a user with one `"save"` action on a venue tagged at
score 50 gets a top affinity row scored exactly 100. -/
theorem C4_affinity_normalization_witness :
    ∃ r ∈ (build_user_tag_affinities 0 [⟨"u", "p", "save", some 0⟩]
        [⟨1, 10, "t", 50⟩] [⟨1, "p", 0, 0, 0⟩]).1, r.user_id = "u" ∧ r.score = 100 := by
  have hlow : strLower "save" = "save" := by decide
  have htab : DEFAULT_ACTION_WEIGHTS "save" = some 3.0 := by rfl
  apply (C4_affinity_normalization 0 [⟨"u", "p", "save", some 0⟩]
    [⟨1, 10, "t", 50⟩] [⟨1, "p", 0, 0, 0⟩]).2 "u"
  · norm_num [affinityAgg, resolveActions, place_to_location, apply_action_weights,
      effectiveWeight, actionAge, mergeActionsTags, aggregateContribs, mergedKey,
      hlow, htab, RECENCY_HALFLIFE_DAYS, Real.exp_zero, List.filterMap_cons,
      List.filterMap_nil, List.filter_cons, List.filter_nil, List.map_cons, List.map_nil,
      List.flatMap_cons, List.flatMap_nil, List.dedup_nil, List.dedup_cons_of_not_mem,
      List.insertionSort, List.orderedInsert, neg_zero, max_self]
  · norm_num [affinityAgg, userMaxContrib, seriesMax, resolveActions, place_to_location,
      apply_action_weights, effectiveWeight, actionAge, mergeActionsTags,
      aggregateContribs, mergedKey, hlow, htab, RECENCY_HALFLIFE_DAYS, Real.exp_zero,
      List.filterMap_cons, List.filterMap_nil, List.filter_cons, List.filter_nil,
      List.map_cons, List.map_nil, List.flatMap_cons, List.flatMap_nil, List.dedup_nil,
      List.dedup_cons_of_not_mem, List.insertionSort, List.orderedInsert, neg_zero,
      max_self]

/-! ### Wall-clock shift lemmas for the affinity pipeline (C9) -/

/-- Scale the weight column. -/
def scaleWAction (c : ℝ) (r : WAction) : WAction := { r with weight := c * r.weight }

/-- Scale the weight and contribution columns. -/
def scaleMerged (c : ℝ) (r : MergedRow) : MergedRow :=
  { r with weight := c * r.weight, contrib := c * r.contrib }

/-- Scale the contribution column. -/
def scaleAgg (c : ℝ) (r : AggRow) : AggRow := { r with contrib := c * r.contrib }

/-- Scale the raw-score metadata only. -/
def scaleAff (c : ℝ) (r : AffRow) : AffRow := { r with metadata := c * r.metadata }

/-- The affinity columns other than the raw-score metadata. -/
def dropMetadata (r : AffRow) : String × Nat × String × ℝ :=
  (r.user_id, r.tag_id, r.tag_text, r.score)

theorem effectiveWeight_shift {now₁ now₂ : ℝ} {a : ResolvedAction}
    (hv : ∃ t, a.created_at = some t ∧ t ≤ now₁ ∧ t ≤ now₂) :
    effectiveWeight now₂ a =
      Real.exp (-(now₂ - now₁) / RECENCY_HALFLIFE_DAYS) * effectiveWeight now₁ a := by
  obtain ⟨t, hct, ht1, ht2⟩ := hv
  unfold effectiveWeight actionAge RECENCY_HALFLIFE_DAYS
  simp only [hct]
  have h1 : max 0 (now₁ - t) = now₁ - t := max_eq_right (by linarith)
  have h2 : max 0 (now₂ - t) = now₂ - t := max_eq_right (by linarith)
  rw [h1, h2]
  rw [show -(now₂ - t) / (30.0 : ℝ) = -(now₂ - now₁) / 30.0 + -(now₁ - t) / 30.0 by ring]
  rw [Real.exp_add]
  ring

open Classical in
theorem apply_action_weights_shift {now₁ now₂ : ℝ} {acts : List ResolvedAction}
    (hv : ∀ a ∈ acts, ∃ t, a.created_at = some t ∧ t ≤ now₁ ∧ t ≤ now₂) :
    apply_action_weights now₂ acts =
      (apply_action_weights now₁ acts).map
        (scaleWAction (Real.exp (-(now₂ - now₁) / RECENCY_HALFLIFE_DAYS))) := by
  have hc : Real.exp (-(now₂ - now₁) / RECENCY_HALFLIFE_DAYS) ≠ 0 :=
    Real.exp_ne_zero _
  unfold apply_action_weights
  have hmap : (acts.map fun a =>
      ({ user_id := a.user_id, place_id := a.place_id, action := strLower a.action,
         created_at := a.created_at, location_id := a.location_id,
         weight := effectiveWeight now₂ a } : WAction)) =
      (acts.map fun a =>
      ({ user_id := a.user_id, place_id := a.place_id, action := strLower a.action,
         created_at := a.created_at, location_id := a.location_id,
         weight := effectiveWeight now₁ a } : WAction)).map
        (scaleWAction (Real.exp (-(now₂ - now₁) / RECENCY_HALFLIFE_DAYS))) := by
    rw [List.map_map]
    apply List.map_congr_left
    intro a ha
    unfold scaleWAction
    simp only [Function.comp_apply]
    rw [effectiveWeight_shift (hv a ha)]
  rw [hmap, List.filter_map]
  congr 1
  apply List.filter_congr
  intro r _
  simp only [Function.comp_apply, scaleWAction, decide_eq_decide]
  constructor
  · intro h hw
    exact h (by rw [hw, mul_zero])
  · intro h
    exact mul_ne_zero hc h

theorem seriesMax_map_mul {c : ℝ} (hc : 0 ≤ c) :
    ∀ l : List ℝ, seriesMax (l.map fun x => c * x) = c * seriesMax l := by
  have hfold : ∀ (xs : List ℝ) (x : ℝ),
      (xs.map fun y => c * y).foldl max (c * x) = c * xs.foldl max x := by
    intro xs
    induction xs with
    | nil => intro x; rfl
    | cons y ys ih =>
      intro x
      simp only [List.map_cons, List.foldl_cons]
      rw [← mul_max_of_nonneg _ _ hc, ih]
  intro l
  cases l with
  | nil => simp [seriesMax]
  | cons x xs =>
    simp only [List.map_cons, seriesMax]
    exact hfold xs x

theorem mergeActionsTags_map_scale (c : ℝ) (w : List WAction)
    (location_tags : List LocationTagRow) :
    mergeActionsTags (w.map (scaleWAction c)) location_tags =
      (mergeActionsTags w location_tags).map (scaleMerged c) := by
  unfold mergeActionsTags
  rw [List.flatMap_map]
  induction w with
  | nil => rfl
  | cons a t ih =>
    simp only [List.flatMap_cons, List.map_append, ih]
    congr 1
    rw [List.map_map]
    apply List.map_congr_left
    intro x _
    simp only [Function.comp_apply, scaleWAction, scaleMerged]
    congr 1
    ring

theorem aggregateContribs_map_scale (c : ℝ) (m : List MergedRow) :
    aggregateContribs (m.map (scaleMerged c)) = (aggregateContribs m).map (scaleAgg c) := by
  unfold aggregateContribs
  have hkeys : (m.map (scaleMerged c)).map mergedKey = m.map mergedKey := by
    rw [List.map_map]
    apply List.map_congr_left
    intro x _
    rfl
  rw [hkeys, List.map_map]
  apply List.map_congr_left
  intro k _
  simp only [Function.comp_apply, scaleAgg]
  congr 1
  rw [List.filter_map]
  have hfil : List.filter ((fun r => decide (mergedKey r = k)) ∘ scaleMerged c) m =
      List.filter (fun r => decide (mergedKey r = k)) m := by
    apply List.filter_congr
    intro r _
    rfl
  rw [hfil, List.map_map]
  rw [show ((fun r : MergedRow => r.contrib) ∘ scaleMerged c) = fun r => c * r.contrib
    from rfl]
  rw [List.sum_map_mul_left]

open Classical in
theorem userMaxContrib_map_scale {c : ℝ} (hc : 0 ≤ c) (agg : List AggRow) (u : String) :
    userMaxContrib (agg.map (scaleAgg c)) u = c * userMaxContrib agg u := by
  unfold userMaxContrib
  rw [List.filter_map]
  have hfil : List.filter ((fun r => decide (r.user_id = u)) ∘ scaleAgg c) agg =
      List.filter (fun r => decide (r.user_id = u)) agg := by
    apply List.filter_congr
    intro r _
    rfl
  rw [hfil, List.map_map]
  rw [show ((fun r : AggRow => r.contrib) ∘ scaleAgg c) = fun r => c * r.contrib from rfl]
  rw [show (fun r : AggRow => c * r.contrib) =
    (fun x => c * x) ∘ (fun r : AggRow => r.contrib) from rfl]
  rw [← List.map_map]
  exact seriesMax_map_mul hc _

open Classical in
theorem normalizePerUser_map_scale {c : ℝ} (hc : 0 < c) (agg : List AggRow) :
    normalizePerUser (agg.map (scaleAgg c)) = (normalizePerUser agg).map (scaleAff c) := by
  unfold normalizePerUser
  rw [List.map_map, List.map_map]
  apply List.map_congr_left
  intro r _
  simp only [Function.comp_apply, scaleAgg, scaleAff]
  have hmax := userMaxContrib_map_scale (le_of_lt hc) agg r.user_id
  have hiff : c * userMaxContrib agg r.user_id ≤ 0 ↔ userMaxContrib agg r.user_id ≤ 0 := by
    constructor
    · intro h
      nlinarith
    · intro h
      exact mul_nonpos_of_nonneg_of_nonpos (le_of_lt hc) h
  congr 1
  rw [hmax]
  by_cases h : userMaxContrib agg r.user_id ≤ 0
  · rw [if_pos h, if_pos (hiff.mpr h)]
  · rw [if_neg h, if_neg (fun hcon => h (hiff.mp hcon))]
    rw [mul_div_mul_left _ _ (ne_of_gt hc)]

theorem orderedInsert_map_of_rel {α : Type} (r : α → α → Prop) [DecidableRel r]
    (f : α → α) (hf : ∀ a b, r (f a) (f b) ↔ r a b) (a : α) :
    ∀ l : List α, List.orderedInsert r (f a) (l.map f) = (List.orderedInsert r a l).map f := by
  intro l
  induction l with
  | nil => rfl
  | cons b t ih =>
    simp only [List.map_cons, List.orderedInsert]
    by_cases h : r a b
    · rw [if_pos ((hf a b).mpr h), if_pos h]
      rfl
    · rw [if_neg (fun hc => h ((hf a b).mp hc)), if_neg h]
      simp only [List.map_cons, ih]

theorem insertionSort_map_of_rel {α : Type} (r : α → α → Prop) [DecidableRel r]
    (f : α → α) (hf : ∀ a b, r (f a) (f b) ↔ r a b) :
    ∀ l : List α, List.insertionSort r (l.map f) = (List.insertionSort r l).map f := by
  intro l
  induction l with
  | nil => rfl
  | cons a t ih =>
    simp only [List.map_cons, List.insertionSort, ih]
    exact orderedInsert_map_of_rel r f hf a _

theorem headPerUserAux_map_of_user {n : Nat} (f : AffRow → AffRow)
    (hf : ∀ r, (f r).user_id = r.user_id) :
    ∀ (l : List AffRow) (seen : List String),
      headPerUserAux n (l.map f) seen = (headPerUserAux n l seen).map f := by
  intro l
  induction l with
  | nil => intro seen; rfl
  | cons a t ih =>
    intro seen
    simp only [List.map_cons, headPerUserAux, hf a]
    by_cases h : seen.count a.user_id < n
    · rw [if_pos h, if_pos h]
      simp only [List.map_cons, ih]
    · rw [if_neg h, if_neg h]
      exact ih _

open Classical in
theorem userHistory_map_scale (c : ℝ) (w : List WAction) :
    userHistory (w.map (scaleWAction c)) = userHistory w := by
  unfold userHistory
  have husers : (w.map (scaleWAction c)).map (fun r => r.user_id) =
      w.map fun r => r.user_id := by
    rw [List.map_map]
    apply List.map_congr_left
    intro x _
    rfl
  rw [husers]
  congr 1
  apply List.map_congr_left
  intro u _
  congr 1
  rw [List.filter_map]
  have hfil : List.filter ((fun r => decide (r.user_id = u)) ∘ scaleWAction c) w =
      List.filter (fun r => decide (r.user_id = u)) w := by
    apply List.filter_congr
    intro r _
    rfl
  rw [hfil, List.length_map]

/-- Claim C9 (amended).  The affinity pipeline is a pure function of the
input tables *and* the wall-clock timestamp.  Two runs at timestamps
`now₁` and `now₂` (all action timestamps preceding both) produce the same
user-history table and the same affinity rows up to the `raw_score`
metadata; the metadata itself scales by `exp(-(now₂-now₁)/30)`, so the
persisted tables are byte-identical only when the two runs share the same
timestamp. -/
theorem C9_time_shift (now₁ now₂ : ℝ) (user_actions : List ActionRow)
    (location_tags : List LocationTagRow) (locations : List LocationRow)
    (hv : ∀ a ∈ user_actions, ∃ t, a.created_at = some t ∧ t ≤ now₁ ∧ t ≤ now₂) :
    ((build_user_tag_affinities now₁ user_actions location_tags locations).1).map
        dropMetadata =
      ((build_user_tag_affinities now₂ user_actions location_tags locations).1).map
        dropMetadata ∧
    (build_user_tag_affinities now₁ user_actions location_tags locations).2 =
      (build_user_tag_affinities now₂ user_actions location_tags locations).2 := by
  classical
  have hv2 : ∀ a ∈ resolveActions user_actions locations,
      ∃ t, a.created_at = some t ∧ t ≤ now₁ ∧ t ≤ now₂ := by
    intro a ha
    obtain ⟨a0, ha0, heq⟩ := List.mem_filterMap.mp ha
    obtain ⟨lid, _, heq2⟩ := Option.map_eq_some'.mp heq
    rw [← heq2]
    exact hv a0 ha0
  have hW := apply_action_weights_shift hv2
  set c := Real.exp (-(now₂ - now₁) / RECENCY_HALFLIFE_DAYS) with hcdef
  have hcpos : 0 < c := Real.exp_pos _
  set W₁ := apply_action_weights now₁ (resolveActions user_actions locations) with hW1
  have hM := mergeActionsTags_map_scale c W₁ location_tags
  have hA := aggregateContribs_map_scale c (mergeActionsTags W₁ location_tags)
  have hN := normalizePerUser_map_scale hcpos
    (aggregateContribs (mergeActionsTags W₁ location_tags))
  have hreliff : ∀ a b : AffRow, affLe (scaleAff c a) (scaleAff c b) ↔ affLe a b := by
    intro a b
    exact Iff.rfl
  have hS := insertionSort_map_of_rel affLe (scaleAff c) hreliff
    (normalizePerUser (aggregateContribs (mergeActionsTags W₁ location_tags)))
  have hH := headPerUserAux_map_of_user (n := 25) (scaleAff c) (fun r => rfl)
    (List.insertionSort affLe
      (normalizePerUser (aggregateContribs (mergeActionsTags W₁ location_tags)))) []
  have hHist := userHistory_map_scale c W₁
  have hdrop : ∀ l : List AffRow, (l.map (scaleAff c)).map dropMetadata = l.map dropMetadata := by
    intro l
    rw [List.map_map]
    apply List.map_congr_left
    intro r _
    rfl
  unfold build_user_tag_affinities
  by_cases h0 : user_actions = [] ∨ location_tags = []
  · simp only [if_pos h0]
    trivial
  · simp only [if_neg h0]
    rw [hW]
    by_cases h1 : W₁ = []
    · simp only [if_pos h1, if_pos (by simp [h1] :
        W₁.map (scaleWAction c) = [])]
      trivial
    · have h1m : ¬ W₁.map (scaleWAction c) = [] := by
        simpa using h1
      simp only [if_neg h1, if_neg h1m]
      rw [hM]
      by_cases h2 : mergeActionsTags W₁ location_tags = []
      · simp only [if_pos h2, if_pos (by simp [h2] :
          (mergeActionsTags W₁ location_tags).map (scaleMerged c) = [])]
        trivial
      · have h2m : ¬ (mergeActionsTags W₁ location_tags).map (scaleMerged c) = [] := by
          simpa using h2
        simp only [if_neg h2, if_neg h2m]
        constructor
        · unfold headPerUser sortAffinities
          rw [hA, hN, hS, hH, hdrop]
        · rw [hHist]

/-- Claim C9 (counterexample).  Identical input tables, two runs of the
affinity pipeline at wall-clock times 0 and 30 days: the `raw_score`
metadata of the single output row is 3 in the first run and
`3·exp(-1)` in the second — the outputs are not byte-identical, because
the recency decay is computed against the current time. -/
theorem C9_wall_clock_counterexample :
    ((build_user_tag_affinities 0 [⟨"u", "p", "save", some 0⟩] [⟨1, 10, "t", 100⟩]
        [⟨1, "p", 0, 0, 0⟩]).1).map (fun r => r.metadata) = [(3 : ℝ)] ∧
    ((build_user_tag_affinities 30 [⟨"u", "p", "save", some 0⟩] [⟨1, 10, "t", 100⟩]
        [⟨1, "p", 0, 0, 0⟩]).1).map (fun r => r.metadata) = [3 * Real.exp (-1)] ∧
    (3 : ℝ) ≠ 3 * Real.exp (-1) := by
  have hlow : strLower "save" = "save" := by decide
  have htab : DEFAULT_ACTION_WEIGHTS "save" = some 3.0 := by rfl
  have hexp1 : Real.exp (-1 : ℝ) < 1 := Real.exp_lt_one_iff.mpr (by norm_num)
  have hexp0 : (0 : ℝ) < Real.exp (-1 : ℝ) := Real.exp_pos _
  refine ⟨?_, ?_, by nlinarith⟩
  · unfold build_user_tag_affinities
    norm_num [resolveActions, place_to_location, apply_action_weights, effectiveWeight,
      actionAge, mergeActionsTags, aggregateContribs, mergedKey, normalizePerUser,
      userMaxContrib, seriesMax, sortAffinities, headPerUser, headPerUserAux,
      List.insertionSort, List.orderedInsert, hlow, htab, RECENCY_HALFLIFE_DAYS,
      Real.exp_zero, List.filterMap_cons, List.filterMap_nil, List.filter_cons,
      List.filter_nil, List.map_cons, List.map_nil, List.flatMap_cons, List.flatMap_nil,
      List.dedup_nil, List.dedup_cons_of_not_mem, List.count_nil, neg_zero, max_self]
  · unfold build_user_tag_affinities
    norm_num [resolveActions, place_to_location, apply_action_weights, effectiveWeight,
      actionAge, mergeActionsTags, aggregateContribs, mergedKey, normalizePerUser,
      userMaxContrib, seriesMax, sortAffinities, headPerUser, headPerUserAux,
      List.insertionSort, List.orderedInsert, hlow, htab, RECENCY_HALFLIFE_DAYS,
      Real.exp_zero, List.filterMap_cons, List.filterMap_nil, List.filter_cons,
      List.filter_nil, List.map_cons, List.map_nil, List.flatMap_cons, List.flatMap_nil,
      List.dedup_nil, List.dedup_cons_of_not_mem, List.count_nil, neg_zero, max_self,
      Real.exp_ne_zero]

/-- Witness for C9: two runs at times 0 and 30 on a one-action log agree
on every column except the raw-score metadata. -/
theorem C9_time_shift_witness :
    ((build_user_tag_affinities 0 [⟨"u", "p", "save", some 0⟩] [⟨1, 10, "t", 100⟩]
        [⟨1, "p", 0, 0, 0⟩]).1).map dropMetadata =
      ((build_user_tag_affinities 30 [⟨"u", "p", "save", some 0⟩] [⟨1, 10, "t", 100⟩]
        [⟨1, "p", 0, 0, 0⟩]).1).map dropMetadata ∧
    (build_user_tag_affinities 0 [⟨"u", "p", "save", some 0⟩] [⟨1, 10, "t", 100⟩]
        [⟨1, "p", 0, 0, 0⟩]).2 =
      (build_user_tag_affinities 30 [⟨"u", "p", "save", some 0⟩] [⟨1, 10, "t", 100⟩]
        [⟨1, "p", 0, 0, 0⟩]).2 := by
  apply C9_time_shift
  intro a ha
  simp only [List.mem_cons, List.not_mem_nil, or_false] at ha
  refine ⟨0, by rw [ha], by norm_num, by norm_num⟩

/-! ## Review tagger (src/pinit/tagging.py) -/

/-- A row of the review table (after joining to a `location_id`). -/
structure ReviewRow where
  location_id : Nat
  language : String
  author_name : String
  text : String

/-- Model of `ReviewTagConfig` from `src/config.py`, with its defaults. -/
structure ReviewTagConfig where
  min_unique_authors : Nat := 2
  min_mentions : Nat := 3
  english_only : Bool := true
  score_floor : ℝ := 20.0
  score_cap : ℝ := 100.0

/-- Model of `REVIEW_TAG_KEYWORDS`, in source order. -/
def REVIEW_TAG_KEYWORDS : List (String × List String) :=
  [("cozy", ["cozy", "cosy", "snug", "warm lighting"]),
   ("romantic", ["romantic", "date night", "special date"]),
   ("lively", ["lively", "buzzy", "energetic", "party"]),
   ("quiet", ["quiet", "peaceful", "calm", "relaxed"]),
   ("trendy", ["trendy", "instagrammable", "aesthetic"]),
   ("casual", ["casual", "laid back", "chill vibes"]),
   ("formal", ["formal", "fine dining", "tasting menu"]),
   ("family_friendly", ["family", "kids", "child friendly", "pram"]),
   ("date_night", ["date night", "romantic", "anniversary"]),
   ("brunch", ["brunch", "poached eggs", "avocado toast"]),
   ("quick_bite", ["quick bite", "fast service", "grab and go"]),
   ("group_hang", ["group of friends", "hen party", "stag do"]),
   ("business_meeting", ["business meeting", "client lunch", "power lunch"]),
   ("solo_friendly", ["solo", "ate alone", "counter seating"]),
   ("cocktails", ["cocktails", "mixology", "negroni", "margarita"]),
   ("wine_bar", ["wine list", "sommelier", "wine flight"]),
   ("craft_beer", ["craft beer", "tap list", "ipa", "lager"]),
   ("vegetarian_friendly", ["vegetarian options", "vegetarian friendly"]),
   ("vegan_friendly", ["vegan options", "plant based", "plant-based"]),
   ("halal_friendly", ["halal", "halal friendly"]),
   ("gluten_free_options", ["gluten free", "gluten-free", "celiac"])]

/-- Python substring containment `kw in text`. -/
def containsKw (kw text : String) : Bool := decide (kw.data <:+: text.data)

/-- Model of `str.startswith(pre)`, character-wise. -/
def strStartsWith (pre s : String) : Bool := decide (pre.data <+: s.data)

/-- The tags a review hits: one hit per tag at most, regardless of how
many of that tag's keywords match (the inner loop breaks on the first
match). -/
def foundTags (text_norm : String) : List String :=
  REVIEW_TAG_KEYWORDS.filterMap fun p =>
    if p.2.any (fun kw => containsKw kw text_norm) then some p.1 else none

/-- The grouping state: per `(location_id, tag_text)` key the distinct
authors seen so far and the mention count. -/
abbrev ReviewGroups : Type := List ((Nat × String) × List String × Nat)

/-- Record one hit: bump the key's mention count and add the author to its
author set (first occurrence appends a fresh entry, preserving insertion
order like a Python dict). -/
def updateGroups : ReviewGroups → Nat × String → String → ReviewGroups
  | [], key, author => [(key, ([author], 1))]
  | (k, as, m) :: rest, key, author =>
    if k = key then
      (k, (if author ∈ as then as else author :: as), m + 1) :: rest
    else (k, as, m) :: updateGroups rest key author

/-- Process one review row: lowercase the text, collect its tag hits, and
fold them into the groups (`entry["authors"].add(row.author_name or
"anon")`). -/
def processReview (groups : ReviewGroups) (row : ReviewRow) : ReviewGroups :=
  (foundTags (strLower row.text)).foldl
    (fun g tag => updateGroups g (row.location_id, tag)
      (if row.author_name = "" then "anon" else row.author_name)) groups

/-- The grouped review hits, in key-first-seen order. -/
def buildGroups (reviews : List ReviewRow) (config : ReviewTagConfig) : ReviewGroups :=
  (if config.english_only then reviews.filter (fun r => strStartsWith "en" r.language)
   else reviews).foldl processReview []

/-- One review-derived tag record; `mentions`/`unique_authors` are the
counts recorded in the evidence metadata. -/
structure ReviewTagRecord where
  location_id : Nat
  tag_text : String
  score : ℝ
  mentions : Nat
  unique_authors : Nat

/-- Model of `_review_tag_records`: keep a group unless it fails *both* thresholds,
and score it `score_floor + 15·ln(1+unique_authors) + 10·ln(1+mentions)`
capped at `score_cap`. -/
noncomputable def review_tag_records (reviews : List ReviewRow)
    (config : ReviewTagConfig) : List ReviewTagRecord :=
  (buildGroups reviews config).filterMap fun g =>
    if g.2.1.length < config.min_unique_authors ∧ g.2.2 < config.min_mentions then none
    else some ⟨g.1.1, g.1.2,
      min config.score_cap (config.score_floor +
        15 * Real.log (1 + (g.2.1.length : ℝ)) + 10 * Real.log (1 + (g.2.2 : ℝ))),
      g.2.2, g.2.1.length⟩

/-- Claim C5.  A `(venue, tag)` group of review hits is kept exactly when
`unique_authors ≥ min_unique_authors` OR `mentions ≥ min_mentions`
(either alone suffices), and every kept record's confidence is
`score_floor + 15·ln(1+unique_authors) + 10·ln(1+mentions)` clamped
above by `score_cap`. -/
theorem C5_review_tag_gate_and_confidence (reviews : List ReviewRow)
    (config : ReviewTagConfig) :
    (∀ rec ∈ review_tag_records reviews config,
        (config.min_unique_authors ≤ rec.unique_authors ∨
          config.min_mentions ≤ rec.mentions) ∧
        rec.score = min config.score_cap (config.score_floor +
          15 * Real.log (1 + (rec.unique_authors : ℝ)) +
          10 * Real.log (1 + (rec.mentions : ℝ)))) ∧
    (∀ g ∈ buildGroups reviews config,
        config.min_unique_authors ≤ g.2.1.length ∨ config.min_mentions ≤ g.2.2 →
        ∃ rec ∈ review_tag_records reviews config,
          rec.location_id = g.1.1 ∧ rec.tag_text = g.1.2 ∧
          rec.unique_authors = g.2.1.length ∧ rec.mentions = g.2.2) := by
  constructor
  · intro rec hrec
    obtain ⟨g, hg, hfg⟩ := List.mem_filterMap.mp hrec
    by_cases hgate : g.2.1.length < config.min_unique_authors ∧ g.2.2 < config.min_mentions
    · rw [if_pos hgate] at hfg
      exact absurd hfg (by simp)
    · rw [if_neg hgate] at hfg
      obtain rfl : (⟨g.1.1, g.1.2,
          min config.score_cap (config.score_floor +
            15 * Real.log (1 + (g.2.1.length : ℝ)) + 10 * Real.log (1 + (g.2.2 : ℝ))),
          g.2.2, g.2.1.length⟩ : ReviewTagRecord) = rec := by simpa using hfg
      constructor
      · rcases not_and_or.mp hgate with h | h
        · exact Or.inl (not_lt.mp h)
        · exact Or.inr (not_lt.mp h)
      · rfl
  · intro g hg hgate
    have hcond : ¬ (g.2.1.length < config.min_unique_authors ∧
        g.2.2 < config.min_mentions) := by
      rcases hgate with h | h
      · exact fun hc => absurd h (not_le.mpr hc.1)
      · exact fun hc => absurd h (not_le.mpr hc.2)
    exact ⟨⟨g.1.1, g.1.2,
      min config.score_cap (config.score_floor +
        15 * Real.log (1 + (g.2.1.length : ℝ)) + 10 * Real.log (1 + (g.2.2 : ℝ))),
      g.2.2, g.2.1.length⟩, List.mem_filterMap.mpr ⟨g, hg, by rw [if_neg hcond]⟩,
      rfl, rfl, rfl, rfl⟩

/-- Concrete review input for the C5 witness. -/
def c5Review : ReviewRow := ⟨1, "en", "alice", "A cozy spot"⟩

/-- Review-tag config with `min_unique_authors = 1` and the other
defaults. -/
noncomputable def c5Config : ReviewTagConfig := { min_unique_authors := 1 }

/-- Witness for C5: a single English review containing "cozy" yields one
record passing the author gate, scored by the log formula. -/
theorem C5_review_tag_witness :
    ∃ rec ∈ review_tag_records [c5Review] c5Config,
      (c5Config.min_unique_authors ≤ rec.unique_authors ∨
        c5Config.min_mentions ≤ rec.mentions) ∧
      rec.score = min c5Config.score_cap (c5Config.score_floor +
        15 * Real.log (1 + (rec.unique_authors : ℝ)) +
        10 * Real.log (1 + (rec.mentions : ℝ))) := by
  have hgroups : buildGroups [c5Review] c5Config = [((1, "cozy"), (["alice"], 1))] := by
    decide
  have hmem : (⟨1, "cozy", min c5Config.score_cap (c5Config.score_floor +
      15 * Real.log (1 + ((1 : Nat) : ℝ)) + 10 * Real.log (1 + ((1 : Nat) : ℝ))),
      1, 1⟩ : ReviewTagRecord) ∈ review_tag_records [c5Review] c5Config := by
    unfold review_tag_records
    rw [hgroups]
    norm_num [c5Config, List.filterMap_cons]
  exact ⟨_, hmem, (C5_review_tag_gate_and_confidence [c5Review] c5Config).1 _ hmem⟩

/-! ## Global recommendation blender (src/pinit/recommendation.py) -/

/-- Model of `RecommendationWeights` from `src/config.py`, with its defaults. -/
structure RecommendationWeights where
  taste : ℝ := 0.5
  trend_app : ℝ := 0.15
  hidden_gems : ℝ := 0.2
  quality : ℝ := 0.15
  friend : ℝ := 0.0
  bubble : ℝ := 0.0

/-- Model of `sum(weights.values())`. -/
noncomputable def sumWeights (w : RecommendationWeights) : ℝ :=
  w.taste + w.trend_app + w.hidden_gems + w.quality + w.friend + w.bubble

open Classical in
/-- Model of `_adaptive_weights`: below 5 actions, scale the taste weight by
`history_size/5`, hand 60% of the removed mass to trend and 40% to
quality, then renormalize (unless the total is 0). -/
noncomputable def adaptive_weights (base : RecommendationWeights)
    (history_size : Nat) : RecommendationWeights :=
  let w := if history_size < 5 then
    let cold_ratio : ℝ := (history_size : ℝ) / 5
    let reduction := base.taste * (1 - cold_ratio)
    ({ base with
        taste := base.taste * cold_ratio,
        trend_app := base.trend_app + reduction * 0.6,
        quality := base.quality + reduction * 0.4 } : RecommendationWeights)
    else base
  let total := sumWeights w
  if total = 0 then w else
  { taste := w.taste / total, trend_app := w.trend_app / total,
    hidden_gems := w.hidden_gems / total, quality := w.quality / total,
    friend := w.friend / total, bubble := w.bubble / total }

/-- Claim C6.  For a user with fewer than 5 actions the taste weight is
scaled by `history/5`, the removed mass goes 60% to trend and 40% to
quality, and (when the base weights do not sum to 0) the result is
renormalized to sum to 1; a user with 0 actions gets taste weight exactly
0. -/
theorem C6_adaptive_cold_start (base : RecommendationWeights) (h : Nat) (hlt : h < 5) :
    (sumWeights base ≠ 0 →
      (adaptive_weights base h).taste =
        base.taste * ((h : ℝ) / 5) / sumWeights base ∧
      (adaptive_weights base h).trend_app =
        (base.trend_app + base.taste * (1 - (h : ℝ) / 5) * 0.6) / sumWeights base ∧
      (adaptive_weights base h).quality =
        (base.quality + base.taste * (1 - (h : ℝ) / 5) * 0.4) / sumWeights base ∧
      sumWeights (adaptive_weights base h) = 1) ∧
    (adaptive_weights base 0).taste = 0 := by
  constructor
  · intro hs
    unfold adaptive_weights
    rw [if_pos hlt]
    dsimp only
    have htot : sumWeights
        ({ base with
            taste := base.taste * ((h : ℝ) / 5),
            trend_app := base.trend_app + base.taste * (1 - (h : ℝ) / 5) * 0.6,
            quality := base.quality + base.taste * (1 - (h : ℝ) / 5) * 0.4 } :
          RecommendationWeights) =
        sumWeights base := by
      unfold sumWeights
      dsimp only
      ring
    rw [htot, if_neg hs]
    refine ⟨rfl, rfl, rfl, ?_⟩
    have hs2 : base.taste + base.trend_app + base.hidden_gems + base.quality +
        base.friend + base.bubble ≠ 0 := by
      unfold sumWeights at hs
      exact hs
    unfold sumWeights
    dsimp only
    field_simp
    ring
  · unfold adaptive_weights
    rw [if_pos (by norm_num : (0 : Nat) < 5)]
    dsimp only
    by_cases h0 : sumWeights
        ({ base with
            taste := base.taste * (((0 : Nat) : ℝ) / 5),
            trend_app := base.trend_app + base.taste * (1 - ((0 : Nat) : ℝ) / 5) * 0.6,
            quality := base.quality + base.taste * (1 - ((0 : Nat) : ℝ) / 5) * 0.4 } :
          RecommendationWeights) = 0
    · rw [if_pos h0]
      dsimp only
      norm_num
    · rw [if_neg h0]
      dsimp only
      norm_num

/-- Witness for C6: with the default base weights and an empty history,
the adapted taste weight is 0 and the weights sum to 1. -/
theorem C6_adaptive_cold_start_witness :
    (adaptive_weights ({} : RecommendationWeights) 0).taste = 0 ∧
    sumWeights (adaptive_weights ({} : RecommendationWeights) 0) = 1 := by
  have h := C6_adaptive_cold_start ({} : RecommendationWeights) 0 (by norm_num)
  have hs : sumWeights ({} : RecommendationWeights) ≠ 0 := by
    unfold sumWeights
    norm_num
  exact ⟨h.2, (h.1 hs).2.2.2⟩

/-- One row of the per-(user, venue) taste-score table. -/
structure TasteRow where
  user_id : String
  location_id : Nat
  taste_score : ℝ

/-- Lexicographic order on `(user_id, location_id)` groupby keys. -/
def userLocKeyLe (a b : String × Nat) : Prop :=
  a.1 < b.1 ∨ (a.1 = b.1 ∧ a.2 ≤ b.2)

open Classical in
/-- Model of `_taste_contributions` (score part): inner-merge the affinity table
with the venue tags on `tag_id` and sum
`(user_score/100) × (venue_score/100)` per `(user, venue)`.  The top-3
explanatory detail map is not modelled. -/
noncomputable def taste_contributions (user_tags : List AffRow)
    (location_tags : List LocationTagRow) : List TasteRow :=
  if user_tags = [] ∨ location_tags = [] then [] else
  let merged := user_tags.flatMap fun u =>
    (location_tags.filter fun l => decide (l.tag_id = u.tag_id)).map fun l => (u, l)
  (List.insertionSort userLocKeyLe
      (merged.map fun p => (p.1.user_id, p.2.location_id)).dedup).map fun k =>
    ⟨k.1, k.2, ((merged.filter fun p => decide ((p.1.user_id, p.2.location_id) = k)).map
      fun p => p.1.score / 100 * (p.2.score / 100)).sum⟩

open Classical in
/-- Global top 250 venues by popularity score. -/
noncomputable def topTrendIds (locations : List LocationRow) : List Nat :=
  ((List.insertionSort (fun a b : LocationRow => b.popularity_score ≤ a.popularity_score)
    locations).take 250).map fun l => l.location_id

open Classical in
/-- Global top 250 venues by hidden-gem score. -/
noncomputable def topHiddenIds (locations : List LocationRow) : List Nat :=
  ((List.insertionSort (fun a b : LocationRow => b.hidden_gem_score ≤ a.hidden_gem_score)
    locations).take 250).map fun l => l.location_id

open Classical in
/-- Model of `sorted(user_ids)`: the users of the affinity table, the history
summary and the action log, deduplicated and sorted. -/
noncomputable def allUserIds (user_tags : List AffRow) (user_history : List HistRow)
    (user_actions : List ActionRow) : List String :=
  List.insertionSort (fun a b : String => a ≤ b)
    ((user_tags.map (fun r => r.user_id) ++ user_history.map (fun r => r.user_id) ++
      user_actions.map (fun r => r.user_id)).dedup)

open Classical in
/-- Model of `_candidate_sets`: per user, the tag-matched venues plus the two
global top lists.  Python dicts/sets are modelled as first-seen-order
deduplicated lists. -/
noncomputable def candidate_sets (taste_rows : List TasteRow)
    (top_trend top_hidden : List Nat) (all_user_ids : List String) :
    List (String × List Nat) :=
  let baseUsers := (taste_rows.map fun t => t.user_id).dedup
  let users := baseUsers ++ (all_user_ids.filter fun u => decide (¬ u ∈ baseUsers))
  users.map fun u =>
    (u, (((taste_rows.filter fun t => decide (t.user_id = u)).map fun t => t.location_id) ++
      top_trend ++ top_hidden).dedup)

open Classical in
/-- Model of `_user_seen_locations`, read per user: every venue id any of the
user's actions resolves to. -/
noncomputable def user_seen_locations (user_actions : List ActionRow)
    (locations : List LocationRow) (u : String) : List Nat :=
  ((user_actions.filter fun a => decide (a.user_id = u)).filterMap fun a =>
    place_to_location locations a.place_id).dedup

/-- Model of `user_history.set_index("user_id")["n_actions"].to_dict()` (last
occurrence wins). -/
def lookupHistory (user_history : List HistRow) (u : String) : Option Nat :=
  (user_history.reverse.find? fun r => r.user_id == u).map fun r => r.n_actions

/-- Model of `int(hist_lookup.get(user_id, len(candidate_ids) // 4))`. -/
def historySizeFor (user_history : List HistRow) (u : String) (cands : List Nat) : Nat :=
  match lookupHistory user_history u with
  | some n => n
  | none => cands.length / 4

/-- Model of `location_metrics.loc[loc_id]` with a unique `location_id` index. -/
def locationMetrics (locations : List LocationRow) (id : Nat) : Option LocationRow :=
  locations.find? fun l => l.location_id == id

/-- One output row of the global blender (the `reason` payload is not
modelled). -/
structure RecRow where
  user_id : String
  location_id : Nat
  rank : Nat
  score : ℝ
  taste_score : ℝ
  trend_score : ℝ
  hidden_gem_score : ℝ
  quality_score : ℝ

/-- Model of `enumerate(rows[:top_k], start=1)` rank assignment. -/
def assignRecRanks : Nat → List RecRow → List RecRow
  | _, [] => []
  | n, row :: rest => { row with rank := n } :: assignRecRanks (n + 1) rest

open Classical in
/-- Model of `build_recommendations`: per user, score the unseen candidates with
the adaptive weight blend, sort descending and keep the top `top_k`. -/
noncomputable def build_recommendations (locations : List LocationRow)
    (user_tags : List AffRow) (location_tags : List LocationTagRow)
    (user_history : List HistRow) (user_actions : List ActionRow)
    (base : RecommendationWeights) (top_k : Nat) : List RecRow :=
  let taste_rows := taste_contributions user_tags location_tags
  let candidate_map := candidate_sets taste_rows (topTrendIds locations)
    (topHiddenIds locations) (allUserIds user_tags user_history user_actions)
  candidate_map.flatMap fun uc =>
    let weights := adaptive_weights base (historySizeFor user_history uc.1 uc.2)
    let rows := uc.2.filterMap fun loc_id =>
      if loc_id ∈ user_seen_locations user_actions locations uc.1 then none else
      (locationMetrics locations loc_id).map fun metrics =>
        let taste_val := (((taste_rows.filter fun t =>
          decide (t.user_id = uc.1)).find? fun t => decide (t.location_id = loc_id)).map
          fun t => t.taste_score).getD 0
        (⟨uc.1, loc_id, 0,
          weights.taste * taste_val + weights.trend_app * metrics.popularity_score +
            weights.hidden_gems * metrics.hidden_gem_score +
            weights.quality * metrics.quality_score,
          taste_val, metrics.popularity_score, metrics.hidden_gem_score,
          metrics.quality_score⟩ : RecRow)
    if rows = [] then [] else
    assignRecRanks 1
      ((List.insertionSort (fun a b : RecRow => b.score ≤ a.score) rows).take top_k)

/-- The effective action weight of a raw log row (as computed by the
profile builder after resolution; the weight does not depend on the
resolved venue id). -/
noncomputable def actionEffectiveWeight (now : ℝ) (a : ActionRow) : ℝ :=
  (DEFAULT_ACTION_WEIGHTS (strLower a.action)).getD 0 *
    Real.exp (-(actionAge now a.created_at) / RECENCY_HALFLIFE_DAYS)

theorem actionEffectiveWeight_eq (now : ℝ) (r : ResolvedAction) :
    effectiveWeight now r =
      actionEffectiveWeight now ⟨r.user_id, r.place_id, r.action, r.created_at⟩ := rfl

theorem mem_assignRecRanks {n : Nat} :
    ∀ {l : List RecRow} {r : RecRow}, r ∈ assignRecRanks n l →
      ∃ r₀ ∈ l, r.user_id = r₀.user_id ∧ r.location_id = r₀.location_id := by
  intro l
  induction l generalizing n with
  | nil => intro r h; simp [assignRecRanks] at h
  | cons a t ih =>
    intro r h
    rcases List.mem_cons.mp h with rfl | h
    · exact ⟨a, List.mem_cons.mpr (Or.inl rfl), rfl, rfl⟩
    · obtain ⟨r₀, hr₀, h1, h2⟩ := ih h
      exact ⟨r₀, List.mem_cons.mpr (Or.inr hr₀), h1, h2⟩

open Classical in
theorem mem_user_seen_locations {user_actions : List ActionRow}
    {locations : List LocationRow} {a : ActionRow} {lid : Nat}
    (ha : a ∈ user_actions) (hres : place_to_location locations a.place_id = some lid) :
    lid ∈ user_seen_locations user_actions locations a.user_id := by
  unfold user_seen_locations
  rw [List.mem_dedup]
  exact List.mem_filterMap.mpr ⟨a, List.mem_filter.mpr ⟨ha, by simp⟩, hres⟩

open Classical in
/-- Claim C8.  No venue that appears in a user's action log with non-zero
effective weight and resolves to a known venue id ever appears among that
user's blended recommendations: filtering the output by "some action of
this user resolves to this venue (with non-zero weight)" leaves nothing. -/
theorem C8_acted_venues_never_recommended (now : ℝ) (locations : List LocationRow)
    (user_tags : List AffRow) (location_tags : List LocationTagRow)
    (user_history : List HistRow) (user_actions : List ActionRow)
    (base : RecommendationWeights) (top_k : Nat) :
    (build_recommendations locations user_tags location_tags user_history user_actions
        base top_k).filter (fun row => user_actions.any fun a =>
      decide (a.user_id = row.user_id) &&
      decide (place_to_location locations a.place_id = some row.location_id) &&
      decide (actionEffectiveWeight now a ≠ 0)) = [] := by
  rw [List.filter_eq_nil_iff]
  intro row hrow
  unfold build_recommendations at hrow
  dsimp only at hrow
  obtain ⟨uc, hucmem, hrowin⟩ := List.mem_flatMap.mp hrow
  split at hrowin
  · simp at hrowin
  · obtain ⟨r₀, hr₀, hru, hrl⟩ := mem_assignRecRanks hrowin
    have hr₁ : r₀ ∈ List.insertionSort (fun a b : RecRow => b.score ≤ a.score) _ :=
      List.take_subset _ _ hr₀
    have hr₂ := (List.perm_insertionSort (fun a b : RecRow => b.score ≤ a.score) _).mem_iff.mp hr₁
    obtain ⟨loc_id, _, hfeq⟩ := List.mem_filterMap.mp hr₂
    by_cases hseen : loc_id ∈ user_seen_locations user_actions locations uc.1
    · rw [if_pos hseen] at hfeq
      simp at hfeq
    · rw [if_neg hseen] at hfeq
      obtain ⟨metrics, _, hmk⟩ := Option.map_eq_some'.mp hfeq
      intro hp
      simp only [List.any_eq_true, Bool.and_eq_true, decide_eq_true_eq] at hp
      obtain ⟨a, hamem, ⟨hauser, hares⟩, _⟩ := hp
      have huser : a.user_id = uc.1 := by
        rw [hauser, hru, ← hmk]
      have hloc : place_to_location locations a.place_id = some loc_id := by
        rw [hares, hrl, ← hmk]
      apply hseen
      rw [← huser]
      exact mem_user_seen_locations hamem hloc

/-- Claim C10.  A user in the candidate map with no row in the user-history
summary gets `floor(|candidates| / 4)` as the action count used for
adaptive reweighting; with 20 or more candidates that is ≥ 5, so the
taste weight is left undiminished (only renormalized by the base sum —
the identity when the base weights sum to 1). -/
theorem C10_missing_history_defaults (user_history : List HistRow) (u : String)
    (cands : List Nat) (base : RecommendationWeights)
    (hnone : lookupHistory user_history u = none) :
    historySizeFor user_history u cands = cands.length / 4 ∧
    (20 ≤ cands.length → sumWeights base ≠ 0 →
      (adaptive_weights base (historySizeFor user_history u cands)).taste =
        base.taste / sumWeights base) := by
  have hsize : historySizeFor user_history u cands = cands.length / 4 := by
    unfold historySizeFor
    rw [hnone]
  refine ⟨hsize, ?_⟩
  intro hge hs
  have h5 : ¬ historySizeFor user_history u cands < 5 := by
    rw [hsize]
    omega
  unfold adaptive_weights
  rw [if_neg h5]
  dsimp only
  rw [if_neg hs]

/-- Witness for C10: an absent user with 20 candidates is treated as
having 5 actions and keeps the full default taste weight of 0.5. -/
theorem C10_missing_history_defaults_witness :
    historySizeFor [] "u" (List.range 20) = 5 ∧
    (adaptive_weights ({} : RecommendationWeights)
      (historySizeFor [] "u" (List.range 20))).taste = 0.5 := by
  have h := C10_missing_history_defaults [] "u" (List.range 20)
    ({} : RecommendationWeights) rfl
  have hlen : (List.range 20).length = 20 := List.length_range 20
  constructor
  · rw [h.1, hlen]
  · have hs : sumWeights ({} : RecommendationWeights) ≠ 0 := by
      unfold sumWeights
      norm_num
    rw [h.2 (by rw [hlen]) hs]
    unfold sumWeights
    norm_num

/-- Sanity check that the blender model produces output at all: one venue,
one user known only from the history table, no actions — the user gets
exactly one recommendation row. -/
theorem build_recommendations_output_nonempty :
    (build_recommendations [⟨1, "p", 0, 0, 0⟩] [] [] [⟨"u", 7⟩] []
      ({} : RecommendationWeights) 30).length = 1 := by
  unfold build_recommendations
  norm_num [taste_contributions, candidate_sets, topTrendIds, topHiddenIds, allUserIds,
    user_seen_locations, locationMetrics, lookupHistory, historySizeFor,
    List.insertionSort, List.orderedInsert, List.dedup_nil, List.dedup_cons_of_not_mem,
    List.filterMap_cons, List.filter_cons, List.filter_nil, List.flatMap_cons,
    List.flatMap_nil, assignRecRanks]

/-! ## Hidden gem model (src/pinit/hidden_gems.py) -/

/-- Model of `pandas.Series.min` of a nonempty series. -/
noncomputable def seriesMin : List ℝ → ℝ
  | [] => 0
  | x :: xs => xs.foldl min x

open Classical in
/-- Model of `_min_max_scale` with numpy's `isclose` degeneracy test
(`|a-b| ≤ atol + rtol·|b|`, `atol = 1e-8`, `rtol = 1e-5`); an empty series
stays empty (pandas propagates the NaN min/max into all-zeros of length
0). -/
noncomputable def min_max_scale (values : List ℝ) : List ℝ :=
  match values with
  | [] => []
  | x :: xs =>
    let vmin := seriesMin (x :: xs)
    let vmax := seriesMax (x :: xs)
    if |vmin - vmax| ≤ 1e-8 + 1e-5 * |vmax| then (x :: xs).map fun _ => 0
    else (x :: xs).map fun v => (v - vmin) / (vmax - vmin)

theorem length_min_max_scale (values : List ℝ) :
    (min_max_scale values).length = values.length := by
  unfold min_max_scale
  match values with
  | [] => rfl
  | x :: xs =>
    dsimp only
    split
    · rw [List.length_map]
    · rw [List.length_map]

/-- A venue row of the model frame: its actual rating and its review
count (`user_ratings_total`, missing values already filled with 0). -/
structure HGRow where
  rating : ℝ
  user_ratings_total : ℝ

open Classical in
/-- The signal computation of `_fit_hype_model` (lines 166-173), with the
fitted regressor's predictions `expected` treated as an oracle input:
positive part of the residual, scaled by the review-count confidence
factor, then zeroed below the review threshold. -/
noncomputable def hype_signal (rows : List HGRow) (expected : List ℝ)
    (min_reviews : Nat) : List ℝ :=
  let hype_residual := List.zipWith (fun (r : HGRow) e => r.rating - e) rows expected
  let review_weight := min_max_scale (rows.map fun r => Real.log (1 + r.user_ratings_total))
  let clipped := hype_residual.map fun x => max x 0
  let scaled := List.zipWith (fun s w => s * (0.35 + 0.65 * w)) clipped review_weight
  List.zipWith (fun (r : HGRow) s =>
    if (min_reviews : ℝ) ≤ r.user_ratings_total then s else 0) rows scaled

theorem getD_zipWith {α β γ : Type} (f : α → β → γ) :
    ∀ (l₁ : List α) (l₂ : List β) (i : Nat) (d₁ : α) (d₂ : β) (d : γ),
      i < l₁.length → i < l₂.length →
      (List.zipWith f l₁ l₂).getD i d = f (l₁.getD i d₁) (l₂.getD i d₂) := by
  intro l₁
  induction l₁ with
  | nil => intro l₂ i d₁ d₂ d h1 _; simp at h1
  | cons a t ih =>
    intro l₂ i d₁ d₂ d h1 h2
    cases l₂ with
    | nil => simp at h2
    | cons b s =>
      cases i with
      | zero => rfl
      | succ j =>
        simp only [List.zipWith_cons_cons, List.getD_cons_succ]
        exact ih s j d₁ d₂ d (by simpa using h1) (by simpa using h2)

theorem getD_map {α β : Type} (f : α → β) :
    ∀ (l : List α) (i : Nat) (d₁ : α) (d : β), i < l.length →
      (l.map f).getD i d = f (l.getD i d₁) := by
  intro l
  induction l with
  | nil => intro i d₁ d h; simp at h
  | cons a t ih =>
    intro i d₁ d h
    cases i with
    | zero => rfl
    | succ j =>
      simp only [List.map_cons, List.getD_cons_succ]
      exact ih j d₁ d (by simpa using h)

/-- Claim C7.  In the primary (model) path, each venue's hidden-gem signal
is the positive part of (actual − expected rating) times
`0.35 + 0.65 × minmax(log(1+review_count))`, and is exactly 0 for every
venue with fewer than `min_reviews` reviews, even when its residual is
positive. -/
theorem C7_hidden_gem_signal (rows : List HGRow) (expected : List ℝ)
    (min_reviews : Nat) (hlen : expected.length = rows.length)
    (i : Nat) (hi : i < rows.length) :
    (hype_signal rows expected min_reviews).getD i 0 =
      if (rows.getD i ⟨0, 0⟩).user_ratings_total < (min_reviews : ℝ) then 0
      else max ((rows.getD i ⟨0, 0⟩).rating - expected.getD i 0) 0 *
        (0.35 + 0.65 *
          (min_max_scale (rows.map fun r => Real.log (1 + r.user_ratings_total))).getD i 0) := by
  have hres : (List.zipWith (fun (r : HGRow) e => r.rating - e) rows expected).length =
      rows.length := by
    rw [List.length_zipWith, hlen, Nat.min_self]
  have hwlen : (min_max_scale (rows.map fun r =>
      Real.log (1 + r.user_ratings_total))).length = rows.length := by
    rw [length_min_max_scale, List.length_map]
  have hclip : ((List.zipWith (fun (r : HGRow) e => r.rating - e) rows expected).map
      fun x => max x 0).length = rows.length := by
    rw [List.length_map, hres]
  have hscaled : (List.zipWith (fun s w => s * (0.35 + 0.65 * w))
      ((List.zipWith (fun (r : HGRow) e => r.rating - e) rows expected).map
        fun x => max x 0)
      (min_max_scale (rows.map fun r => Real.log (1 + r.user_ratings_total)))).length =
      rows.length := by
    rw [List.length_zipWith, hclip, hwlen, Nat.min_self]
  unfold hype_signal
  rw [getD_zipWith _ rows _ i ⟨0, 0⟩ 0 0 hi (by rw [hscaled]; exact hi)]
  rw [getD_zipWith _ _ _ i 0 0 0 (by rw [hclip]; exact hi) (by rw [hwlen]; exact hi)]
  rw [getD_map _ _ i 0 0 (by rw [hres]; exact hi)]
  rw [getD_zipWith _ rows expected i ⟨0, 0⟩ 0 0 hi (by rw [hlen]; exact hi)]
  by_cases hc : (min_reviews : ℝ) ≤ (rows.getD i ⟨0, 0⟩).user_ratings_total
  · rw [if_pos hc, if_neg (not_lt.mpr hc)]
  · rw [if_neg hc, if_pos (not_le.mp hc)]

/-- Witness for C7 (the spec's venue A): rating 4.8 with only 5 reviews
and expected rating 4.2 — positive residual, yet the signal is forced to
0 by the `min_reviews = 40` gate. -/
theorem C7_hidden_gem_signal_witness :
    (hype_signal [⟨4.8, 5⟩] [4.2] 40).getD 0 0 = 0 ∧ (0 : ℝ) < 4.8 - 4.2 := by
  constructor
  · rw [C7_hidden_gem_signal [⟨4.8, 5⟩] [4.2] 40 rfl 0 (by norm_num)]
    rw [if_pos (by norm_num)]
  · norm_num

end Pinit
